import Mathlib

/-!
Verification of the sbox sandbox orchestrator (streamingfast/sbox).

This file gives a shallow embedding, in Lean 4, of the pure core of the
orchestrator: environment-list merging, profile resolution, template
hashing (including a faithful SHA-256), entrypoint-manifest reading and
writing, backend resolution, checked-in config merging, mount-drift
detection, sandbox naming, and the command traces of the Stop and
creation paths of the two backends.  Go strings are modelled as Lean
strings (the inputs of interest are ASCII, where the byte view and the
character view coincide); Go maps used purely for membership or for
keyed upsert are modelled as lists; Go functions that consult the
process environment, the working directory, the home directory or the
symlink structure of the filesystem take those facts as explicit
parameters.  External tool invocations are modelled as command traces
returned alongside results.
-/

namespace Sbox

/-! ### Go standard library models: strings and paths -/

/-- Model of Go strings.Contains on character lists: pat occurs
contiguously inside s. -/
def containsSub (s pat : List Char) : Bool :=
  s.tails.any (fun t => pat.isPrefixOf t)

/-- Model of Go strings.Contains on strings. -/
def strContains (s pat : String) : Bool :=
  containsSub s.data pat.data

/-- Model of Go strings.HasPrefix. -/
def strHasPrefix (s pat : String) : Bool :=
  pat.data.isPrefixOf s.data

/-- Split a character list at every occurrence of a separator, keeping
empty segments, as Go strings.Split does for a one-character
separator. -/
def splitOnChar (sep : Char) : List Char → List (List Char)
  | [] => [[]]
  | c :: cs =>
    if c = sep then [] :: splitOnChar sep cs
    else
      match splitOnChar sep cs with
      | [] => [[c]]
      | h :: t => (c :: h) :: t

/-- Join path components with slashes. -/
def joinWithSlash : List (List Char) → List Char
  | [] => []
  | [c] => c
  | c :: rest => c ++ '/' :: joinWithSlash rest

/-- Model of Go path/filepath.Clean (the lexical cleaning algorithm,
on slash-separated paths): empty components and dot components vanish,
a dot-dot component pops the previous component when possible, a rooted
path stays rooted, and the empty result becomes a single dot. -/
def goClean (path : String) : String :=
  let rooted := decide (path.data.head? = some '/')
  let comps := (splitOnChar '/' path.data).filter
    (fun c => c ≠ [] && c ≠ ['.'])
  let out := comps.foldl
    (fun acc c =>
      if c = ['.', '.'] then
        match acc.getLast? with
        | none => if rooted then acc else acc ++ [['.', '.']]
        | some last =>
          if last = ['.', '.'] then acc ++ [['.', '.']] else acc.dropLast
      else acc ++ [c]) []
  let s := String.mk (joinWithSlash out)
  if rooted then "/" ++ s else if s = "" then "." else s

/-- Model of Go path/filepath.Join for two elements: empty elements are
dropped, the rest are joined with a slash and cleaned. -/
def goJoin (a b : String) : String :=
  if a = "" then goClean b
  else if b = "" then goClean a
  else goClean (a ++ "/" ++ b)

/-- Model of Go path/filepath.Abs, with the working directory passed
explicitly: an absolute path is cleaned, a relative path is joined to
the working directory. -/
def goAbs (cwd path : String) : String :=
  if strHasPrefix path "/" then goClean path else goJoin cwd path

/-- Model of Go path/filepath.Base: trailing slashes are dropped, then
everything up to the last slash; the empty path gives a dot and an
all-slash path gives a slash. -/
def goBase (path : String) : String :=
  if path = "" then "."
  else
    let stripped := (path.data.reverse.dropWhile (· = '/')).reverse
    if stripped = [] then "/"
    else String.mk ((stripped.reverse.takeWhile (· ≠ '/')).reverse)

/-! ### Profile catalog (profiles.go)

The DockerfileSnippet field of each profile is an opaque installation
text block; no claim mentions it, so the embedding keeps the name,
description and dependency fields that the resolution logic reads. -/

/-- A development profile (profiles.go). -/
structure Profile where
  Name : String
  Description : String
  Dependencies : List String := []
deriving DecidableEq

/-- GetProfile retrieves a built-in profile by name (profiles.go); the
catalog holds go, rust, docker, bash-utils, substreams and javascript,
with substreams depending on rust and no other dependencies. -/
def GetProfile (name : String) : Option Profile :=
  if name = "go" then
    some { Name := "go", Description := "Go programming language toolchain (latest stable version)" }
  else if name = "rust" then
    some { Name := "rust", Description := "Rust programming language toolchain (stable)" }
  else if name = "docker" then
    some { Name := "docker", Description := "Docker CLI tools for container management" }
  else if name = "bash-utils" then
    some { Name := "bash-utils", Description := "Common shell utilities (jq, yq, curl, wget, git)" }
  else if name = "substreams" then
    some { Name := "substreams",
           Description := "Substreams and Firehose Core CLI tools for blockchain data",
           Dependencies := ["rust"] }
  else if name = "javascript" then
    some { Name := "javascript", Description := "JavaScript/TypeScript development tools (pnpm, yarn)" }
  else none

/-- Dependencies of a name under GetProfile; unknown names have none. -/
def depsOf (name : String) : List String :=
  match GetProfile name with
  | some p => p.Dependencies
  | none => []

/-- Height of a name in the dependency graph of the built-in catalog;
used as a termination measure for the depth-first resolution.  Only
substreams has a dependency, so its rank is one and all other ranks are
zero. -/
def profRank (name : String) : Nat :=
  if name = "substreams" then 1 else 0

/-- Every dependency of a known profile has strictly smaller rank: the
built-in catalog is acyclic. -/
theorem profRank_dep_lt {name : String} {p : Profile} (h : GetProfile name = some p) :
    ∀ d ∈ p.Dependencies, profRank d < profRank name := by
  unfold GetProfile at h
  split_ifs at h with h1 h2 h3 h4 h5 h6
  all_goals first
    | exact Option.noConfusion h
    | (injection h with hp; subst_vars; decide)

mutual

/-- One step of the depth-first profile resolution (ResolveProfiles in
the template builder): a name already seen is skipped; an unknown name
is recorded and appended unresolved; a known name has its dependencies
resolved first and is then recorded and appended.  The state is the
pair of the seen set and the output list. -/
def resolveName (name : String) (st : List String × List String) :
    List String × List String :=
  if name ∈ st.1 then st
  else
    match h : GetProfile name with
    | none => (name :: st.1, st.2 ++ [name])
    | some p =>
      let st1 := resolveDeps p.Dependencies (profRank name) (profRank_dep_lt h) st
      (name :: st1.1, st1.2 ++ [name])
termination_by (profRank name + 1, 0)
decreasing_by
  exact Prod.Lex.left _ _ (Nat.lt_succ_self _)

/-- Resolve a dependency list in order (the loop over
profile.Dependencies inside resolve).  The rank bound and its proof
only serve termination; they carry no data. -/
def resolveDeps : (deps : List String) → (r : Nat) →
    (∀ d ∈ deps, profRank d < r) → (List String × List String) →
    List String × List String
  | [], _, _, st => st
  | d :: ds, r, hlt, st =>
    resolveDeps ds r (fun x hx => hlt x (List.mem_cons_of_mem d hx))
      (resolveName d st)
termination_by deps r _ _ => (r, deps.length + 1)
decreasing_by
  · have hd := hlt d (List.mem_cons_self d ds)
    rcases Nat.lt_or_ge (profRank d + 1) r with hc | hc
    · exact Prod.Lex.left _ _ hc
    · have he : profRank d + 1 = r := Nat.le_antisymm hd hc
      subst he
      exact Prod.Lex.right _ (Nat.zero_lt_succ _)
  · exact Prod.Lex.right _ (Nat.lt_succ_self _)

end

/-- ResolveProfiles (template builder): expand the requested profile
list depth first, dependencies before dependents, without duplicates,
passing unknown names through. -/
def ResolveProfiles (profiles : List String) : List String :=
  (profiles.foldl (fun st n => resolveName n st) ([], [])).2

/-! ### Derived equations of the resolver

The resolver is defined by well-founded recursion, so its behaviour is
captured by the following equations, split along the shape of the
catalog: a seen name is skipped, a name without dependencies (unknown
or dependency-free) is appended, and substreams first resolves rust. -/

theorem resolveName_skip {name : String} {st : List String × List String}
    (h : name ∈ st.1) : resolveName name st = st := by
  rw [resolveName, if_pos h]

theorem resolveDeps_eq_nil {deps : List String} {r : Nat}
    {hlt : ∀ d ∈ deps, profRank d < r} {st : List String × List String}
    (h : deps = []) : resolveDeps deps r hlt st = st := by
  subst h
  rw [resolveDeps]

theorem resolveDeps_eq_single {deps : List String} {d : String} {r : Nat}
    {hlt : ∀ x ∈ deps, profRank x < r} {st : List String × List String}
    (h : deps = [d]) : resolveDeps deps r hlt st = resolveName d st := by
  subst h
  rw [resolveDeps, resolveDeps]

theorem resolveName_known {name : String} {p : Profile}
    {st : List String × List String} (hn : name ∉ st.1)
    (hp : GetProfile name = some p) :
    resolveName name st =
      (name :: (resolveDeps p.Dependencies (profRank name) (profRank_dep_lt hp) st).1,
       (resolveDeps p.Dependencies (profRank name) (profRank_dep_lt hp) st).2 ++ [name]) := by
  rw [resolveName, if_neg hn]
  split
  · rename_i heq
    rw [hp] at heq
    exact Option.noConfusion heq
  · rename_i q heq
    rw [hp] at heq
    injection heq with heq
    subst heq
    rfl

theorem resolveName_unknown {name : String} {st : List String × List String}
    (hn : name ∉ st.1) (hp : GetProfile name = none) :
    resolveName name st = (name :: st.1, st.2 ++ [name]) := by
  rw [resolveName, if_neg hn]
  split
  · rfl
  · rename_i q heq
    rw [hp] at heq
    exact Option.noConfusion heq

/-- Every profile name either has no dependencies (unknown names
included) or is substreams, whose only dependency is rust. -/
theorem depsOf_cases (name : String) :
    depsOf name = [] ∨ (name = "substreams" ∧ depsOf name = ["rust"]) := by
  by_cases h : name = "substreams"
  · subst h
    right
    exact ⟨rfl, by decide⟩
  · left
    unfold depsOf GetProfile
    split_ifs with h1 h2 h3 h4 h5 h6 <;> first | rfl | exact absurd h1 h | skip
    all_goals subst_vars <;> rfl

/-- A name with no dependencies that has not been seen is recorded and
appended, whether it is a known dependency-free profile or an unknown
name passed through. -/
theorem resolveName_leaf {name : String} {st : List String × List String}
    (hn : name ∉ st.1) (hd : depsOf name = []) :
    resolveName name st = (name :: st.1, st.2 ++ [name]) := by
  cases hp : GetProfile name with
  | none => exact resolveName_unknown hn hp
  | some p =>
    have hdeps : p.Dependencies = [] := by
      unfold depsOf at hd
      rw [hp] at hd
      exact hd
    rw [resolveName_known hn hp, resolveDeps_eq_nil hdeps]

/-- Resolving substreams resolves rust first and then appends itself. -/
theorem resolveName_substreams {st : List String × List String}
    (hn : "substreams" ∉ st.1) :
    resolveName "substreams" st =
      ("substreams" :: (resolveName "rust" st).1,
       (resolveName "rust" st).2 ++ ["substreams"]) := by
  have hp : GetProfile "substreams" =
      some { Name := "substreams",
             Description := "Substreams and Firehose Core CLI tools for blockchain data",
             Dependencies := ["rust"] } := by decide
  rw [resolveName_known hn hp, resolveDeps_eq_single (d := "rust") rfl]

/-! ### Invariants of the resolver -/

/-- The seen set and the output list of a resolver state hold the same
names. -/
def SeenMatches (st : List String × List String) : Prop :=
  ∀ x, x ∈ st.1 ↔ x ∈ st.2

/-- Every dependency of every listed profile appears strictly earlier
in the list. -/
def DepClosed (l : List String) : Prop :=
  ∀ i, (h : i < l.length) → ∀ d ∈ depsOf l[i], d ∈ l.take i

/-- The resolver invariant: seen set and output agree, the output has
no duplicates, and dependencies precede dependents. -/
def ResolverInv (st : List String × List String) : Prop :=
  SeenMatches st ∧ st.2.Nodup ∧ DepClosed st.2

theorem resolverInv_init : ResolverInv ([], []) :=
  ⟨fun x => Iff.rfl, List.nodup_nil, fun i h => by simp at h⟩

theorem depClosed_mem {l : List String} (hc : DepClosed l) {x : String}
    (hx : x ∈ l) : ∀ d ∈ depsOf x, d ∈ l := by
  intro d hd
  obtain ⟨i, hi, rfl⟩ := List.getElem_of_mem hx
  exact List.take_subset i l (hc i hi d hd)

theorem depClosed_append {l : List String} {x : String} (hc : DepClosed l)
    (hx : ∀ d ∈ depsOf x, d ∈ l) : DepClosed (l ++ [x]) := by
  intro i h d hd
  have hlen : i < l.length + 1 := by simpa using h
  by_cases hi : i < l.length
  · rw [List.getElem_append_left hi] at hd
    rw [List.take_append_of_le_length (Nat.le_of_lt hi)]
    exact hc i hi d hd
  · have hieq : i = l.length := by omega
    subst hieq
    rw [List.getElem_concat_length _ _ _ rfl] at hd
    rw [List.take_left]
    exact hx d hd

/-- The central step lemma: one resolver step preserves the invariant,
extends the output, records the stepped name, and adds exactly the
stepped name plus rust when the name is substreams. -/
theorem resolveName_step {n : String} {st : List String × List String}
    (hInv : ResolverInv st) :
    ResolverInv (resolveName n st) ∧
    (∃ ext, (resolveName n st).2 = st.2 ++ ext) ∧
    n ∈ (resolveName n st).2 ∧
    (∀ x, x ∈ (resolveName n st).2 ↔
      x ∈ st.2 ∨ x = n ∨ (x = "rust" ∧ n = "substreams")) := by
  obtain ⟨hseen, hnodup, hclosed⟩ := hInv
  by_cases hn : n ∈ st.1
  · rw [resolveName_skip hn]
    have hn2 : n ∈ st.2 := (hseen n).mp hn
    refine ⟨⟨hseen, hnodup, hclosed⟩, ⟨[], by simp⟩, hn2, fun x => ?_⟩
    constructor
    · intro hx; exact Or.inl hx
    · rintro (hx | rfl | ⟨rfl, rfl⟩)
      · exact hx
      · exact hn2
      · exact depClosed_mem hclosed hn2 "rust" (by decide)
  · have hn2 : n ∉ st.2 := fun hx => hn ((hseen n).mpr hx)
    rcases depsOf_cases n with hd | ⟨hs, hd⟩
    · rw [resolveName_leaf hn hd]
      have hsub : n ≠ "substreams" := by
        intro he
        rw [he] at hd
        exact absurd hd (by decide)
      refine ⟨⟨?_, ?_, ?_⟩, ⟨[n], rfl⟩, by simp, fun x => ?_⟩
      · intro x
        simp only [List.mem_cons, List.mem_append, List.mem_singleton]
        rw [hseen x]
        tauto
      · simp [List.nodup_append, hnodup, hn2]
      · exact depClosed_append hclosed (by rw [hd]; simp)
      · simp only [List.mem_append, List.mem_singleton]
        constructor
        · rintro (hx | rfl)
          · exact Or.inl hx
          · exact Or.inr (Or.inl rfl)
        · rintro (hx | rfl | ⟨rfl, rfl⟩)
          · exact Or.inl hx
          · exact Or.inr rfl
          · exact absurd rfl hsub
    · subst hs
      rw [resolveName_substreams hn]
      have hrdeps : depsOf "rust" = [] := by decide
      by_cases hr : "rust" ∈ st.1
      · have hr2 : "rust" ∈ st.2 := (hseen "rust").mp hr
        rw [resolveName_skip hr]
        refine ⟨⟨?_, ?_, ?_⟩, ⟨["substreams"], rfl⟩, by simp, fun x => ?_⟩
        · intro x
          simp only [List.mem_cons, List.mem_append, List.mem_singleton]
          rw [hseen x]
          tauto
        · simp [List.nodup_append, hnodup, hn2]
        · exact depClosed_append hclosed (by rw [hd]; simpa using hr2)
        · simp only [List.mem_append, List.mem_singleton]
          constructor
          · rintro (hx | rfl)
            · exact Or.inl hx
            · exact Or.inr (Or.inl rfl)
          · rintro (hx | rfl | ⟨rfl, _⟩)
            · exact Or.inl hx
            · exact Or.inr rfl
            · exact Or.inl hr2
      · have hr2 : "rust" ∉ st.2 := fun hx => hr ((hseen "rust").mpr hx)
        rw [resolveName_leaf hr hrdeps]
        have hne : "rust" ≠ "substreams" := by decide
        refine ⟨⟨?_, ?_, ?_⟩, ⟨["rust", "substreams"], by simp⟩, by simp, fun x => ?_⟩
        · intro x
          simp only [List.mem_cons, List.mem_append, List.mem_singleton]
          rw [hseen x]
          tauto
        · simp only [List.append_assoc]
          simp [List.nodup_append, hnodup, hn2, hr2, hne]
        · have h1 : DepClosed (st.2 ++ ["rust"]) :=
            depClosed_append hclosed (by rw [hrdeps]; simp)
          have h2 : DepClosed ((st.2 ++ ["rust"]) ++ ["substreams"]) :=
            depClosed_append h1 (by rw [hd]; simp)
          simpa [List.append_assoc] using h2
        · simp only [List.mem_append, List.mem_cons, List.mem_singleton,
            List.not_mem_nil, or_false]
          tauto

/-- Folding the resolver over a request list preserves the invariant,
extends the output, includes every requested name, and adds exactly
the requested names plus rust when substreams was requested. -/
theorem resolveFold_inv (l : List String) :
    ∀ st, ResolverInv st →
      ResolverInv (l.foldl (fun s n => resolveName n s) st) ∧
      (∃ ext, (l.foldl (fun s n => resolveName n s) st).2 = st.2 ++ ext) ∧
      (∀ n ∈ l, n ∈ (l.foldl (fun s n => resolveName n s) st).2) ∧
      (∀ x, x ∈ (l.foldl (fun s n => resolveName n s) st).2 ↔
        x ∈ st.2 ∨ x ∈ l ∨ (x = "rust" ∧ "substreams" ∈ l)) := by
  induction l with
  | nil =>
    intro st hInv
    exact ⟨hInv, ⟨[], by simp⟩, by simp, fun x => by simp⟩
  | cons n l ih =>
    intro st hInv
    obtain ⟨hInv1, ⟨e1, he1⟩, hn1, hchar1⟩ := resolveName_step (n := n) hInv
    obtain ⟨hInv2, ⟨e2, he2⟩, hmem2, hchar2⟩ := ih (resolveName n st) hInv1
    simp only [List.foldl_cons]
    refine ⟨hInv2, ⟨e1 ++ e2, by rw [he2, he1, List.append_assoc]⟩, ?_, ?_⟩
    · intro m hm
      rcases List.mem_cons.mp hm with rfl | hm
      · rw [he2]
        exact List.mem_append_left _ hn1
      · exact hmem2 m hm
    · intro x
      rw [hchar2 x]
      rw [hchar1 x]
      simp only [List.mem_cons]
      constructor
      · rintro ((hx | rfl | ⟨rfl, rfl⟩) | hx | ⟨rfl, hs⟩)
        · exact Or.inl hx
        · exact Or.inr (Or.inl (Or.inl rfl))
        · exact Or.inr (Or.inr ⟨rfl, Or.inl rfl⟩)
        · exact Or.inr (Or.inl (Or.inr hx))
        · exact Or.inr (Or.inr ⟨rfl, Or.inr hs⟩)
      · rintro (hx | (rfl | hx) | ⟨rfl, rfl | hs⟩)
        · exact Or.inl (Or.inl hx)
        · exact Or.inl (Or.inr (Or.inl rfl))
        · exact Or.inr (Or.inl hx)
        · exact Or.inl (Or.inr (Or.inr ⟨rfl, rfl⟩))
        · exact Or.inr (Or.inr ⟨rfl, hs⟩)

/-- A step on a name whose dependencies are all already seen simply
records and appends the name. -/
theorem resolveName_closed {n : String} {st : List String × List String}
    (hn : n ∉ st.1) (hdeps : ∀ d ∈ depsOf n, d ∈ st.1) :
    resolveName n st = (n :: st.1, st.2 ++ [n]) := by
  rcases depsOf_cases n with hd | ⟨hs, hd⟩
  · exact resolveName_leaf hn hd
  · subst hs
    have hr : "rust" ∈ st.1 := hdeps "rust" (by rw [hd]; simp)
    rw [resolveName_substreams hn, resolveName_skip hr]

/-- Folding the resolver over a list that is duplicate-free relative to
the current output and closed under dependencies appends the list
unchanged. -/
theorem resolveFold_closed (l : List String) :
    ∀ st, SeenMatches st → (st.2 ++ l).Nodup →
      (∀ i, (h : i < l.length) → ∀ d ∈ depsOf l[i], d ∈ st.2 ++ l.take i) →
      l.foldl (fun s n => resolveName n s) st = (l.reverse ++ st.1, st.2 ++ l) := by
  induction l with
  | nil =>
    intro st _ _ _
    simp
  | cons n l ih =>
    intro st hseen hnodup hcl
    have hn2 : n ∉ st.2 := by
      intro hx
      have := List.disjoint_of_nodup_append hnodup
      exact this hx (by simp)
    have hn1 : n ∉ st.1 := fun hx => hn2 ((hseen n).mp hx)
    have hdeps : ∀ d ∈ depsOf n, d ∈ st.1 := by
      intro d hd
      have h0 := hcl 0 (by simp) d (by simpa using hd)
      apply (hseen d).mpr
      simpa using h0
    rw [List.foldl_cons, resolveName_closed hn1 hdeps]
    have hassoc : st.2 ++ n :: l = (st.2 ++ [n]) ++ l := by simp
    have hseen2 : SeenMatches (n :: st.1, st.2 ++ [n]) := by
      intro x
      simp only [List.mem_cons, List.mem_append, List.mem_singleton]
      rw [hseen x]
      tauto
    have hnodup2 : ((st.2 ++ [n]) ++ l).Nodup := by
      rw [← hassoc]
      exact hnodup
    have hcl2 : ∀ i, (h : i < l.length) → ∀ d ∈ depsOf l[i],
        d ∈ (st.2 ++ [n]) ++ l.take i := by
      intro i h d hd
      have := hcl (i + 1) (by simpa using Nat.succ_lt_succ h) d (by simpa using hd)
      simpa [List.append_assoc] using this
    have := ih (n :: st.1, st.2 ++ [n]) hseen2 hnodup2 hcl2
    rw [this]
    simp

/-- C2 main components, assembled below into the claim theorem. -/
theorem resolveProfiles_inv (requested : List String) :
    (ResolveProfiles requested).Nodup ∧ DepClosed (ResolveProfiles requested) ∧
    (∀ n ∈ requested, n ∈ ResolveProfiles requested) := by
  obtain ⟨⟨_, hnodup, hclosed⟩, _, hmem, _⟩ :=
    resolveFold_inv requested ([], []) resolverInv_init
  exact ⟨hnodup, hclosed, hmem⟩

/-- Membership in the resolved list is membership in the request plus
rust whenever substreams was requested. -/
theorem mem_resolveProfiles (requested : List String) (x : String) :
    x ∈ ResolveProfiles requested ↔
      x ∈ requested ∨ (x = "rust" ∧ "substreams" ∈ requested) := by
  obtain ⟨_, _, _, hchar⟩ := resolveFold_inv requested ([], []) resolverInv_init
  have := hchar x
  simpa using this

/-- Resolving an already resolved list reproduces it exactly. -/
theorem resolveProfiles_idem (requested : List String) :
    ResolveProfiles (ResolveProfiles requested) = ResolveProfiles requested := by
  obtain ⟨hnodup, hclosed, _⟩ := resolveProfiles_inv requested
  have h := resolveFold_closed (ResolveProfiles requested) ([], [])
    (fun x => Iff.rfl) (by simpa using hnodup)
    (by
      intro i h d hd
      simpa using hclosed i h d hd)
  have hdef : ResolveProfiles (ResolveProfiles requested) =
      ((ResolveProfiles requested).foldl (fun s n => resolveName n s) ([], [])).2 := rfl
  rw [hdef, h]
  simp

/-! ### SHA-256 (crypto/sha256), on byte lists, words as Nat modulo 2^32 -/

/-- Truncate to a 32-bit word. -/
def w32 (x : Nat) : Nat := x % 4294967296

/-- Rotate a 32-bit word right by n bits. -/
def rotr (n x : Nat) : Nat := w32 ((x >>> n) ||| (x <<< (32 - n)))

/-- SHA-256 round constants, in decimal. -/
def shaK : List Nat :=
  [1116352408, 1899447441, 3049323471, 3921009573, 961987163, 1508970993,
   2453635748, 2870763221, 3624381080, 310598401, 607225278, 1426881987,
   1925078388, 2162078206, 2614888103, 3248222580, 3835390401, 4022224774,
   264347078, 604807628, 770255983, 1249150122, 1555081692, 1996064986,
   2554220882, 2821834349, 2952996808, 3210313671, 3336571891, 3584528711,
   113926993, 338241895, 666307205, 773529912, 1294757372, 1396182291,
   1695183700, 1986661051, 2177026350, 2456956037, 2730485921, 2820302411,
   3259730800, 3345764771, 3516065817, 3600352804, 4094571909, 275423344,
   430227734, 506948616, 659060556, 883997877, 958139571, 1322822218,
   1537002063, 1747873779, 1955562222, 2024104815, 2227730452, 2361852424,
   2428436474, 2756734187, 3204031479, 3329325298]

/-- SHA-256 initial hash value, in decimal. -/
def shaH0 : List Nat :=
  [1779033703, 3144134277, 1013904242, 2773480762,
   1359893119, 2600822924, 528734635, 1541459225]

/-- Choice function of the compression rounds. -/
def shaCh (x y z : Nat) : Nat := (x &&& y) ^^^ ((x ^^^ 4294967295) &&& z)

/-- Majority function of the compression rounds. -/
def shaMaj (x y z : Nat) : Nat := (x &&& y) ^^^ (x &&& z) ^^^ (y &&& z)

/-- Big sigma zero. -/
def bsig0 (x : Nat) : Nat := rotr 2 x ^^^ rotr 13 x ^^^ rotr 22 x

/-- Big sigma one. -/
def bsig1 (x : Nat) : Nat := rotr 6 x ^^^ rotr 11 x ^^^ rotr 25 x

/-- Small sigma zero. -/
def ssig0 (x : Nat) : Nat := rotr 7 x ^^^ rotr 18 x ^^^ (x >>> 3)

/-- Small sigma one. -/
def ssig1 (x : Nat) : Nat := rotr 17 x ^^^ rotr 19 x ^^^ (x >>> 10)

/-- Big-endian eight-byte encoding of a length in bits. -/
def lenBE8 (n : Nat) : List Nat :=
  [(n >>> 56) % 256, (n >>> 48) % 256, (n >>> 40) % 256, (n >>> 32) % 256,
   (n >>> 24) % 256, (n >>> 16) % 256, (n >>> 8) % 256, n % 256]

/-- SHA-256 message padding: append the 0x80 marker, zeros up to 56
modulo 64, and the bit length in 8 big-endian bytes. -/
def shaPad (msg : List Nat) : List Nat :=
  let len := msg.length
  let padZeros := (119 - len % 64) % 64
  msg ++ [128] ++ List.replicate padZeros 0 ++ lenBE8 (len * 8)

/-- Group bytes into big-endian 32-bit words. -/
def bytesToWords : List Nat → List Nat
  | a :: b :: c :: d :: rest => (((a * 256 + b) * 256 + c) * 256 + d) :: bytesToWords rest
  | _ => []

/-- Split a word list into 16-word blocks; a padded message is always
an exact multiple of sixteen words. -/
def chunk16 : List Nat → List (List Nat)
  | w0 :: w1 :: w2 :: w3 :: w4 :: w5 :: w6 :: w7 ::
      w8 :: w9 :: w10 :: w11 :: w12 :: w13 :: w14 :: w15 :: rest =>
    [w0, w1, w2, w3, w4, w5, w6, w7, w8, w9, w10, w11, w12, w13, w14, w15] ::
      chunk16 rest
  | _ => []

/-- Extend a 16-word block to the 64-word message schedule. -/
def extendW (block : List Nat) : List Nat :=
  (List.range 48).foldl
    (fun acc _ =>
      let n := acc.length
      acc ++ [w32 (ssig1 (acc.getD (n - 2) 0) + acc.getD (n - 7) 0 +
        ssig0 (acc.getD (n - 15) 0) + acc.getD (n - 16) 0)])
    block

/-- One SHA-256 compression of a 16-word block into the running hash. -/
def compressBlock (h : List Nat) (block : List Nat) : List Nat :=
  let w := extendW block
  let init := (h.getD 0 0, h.getD 1 0, h.getD 2 0, h.getD 3 0,
               h.getD 4 0, h.getD 5 0, h.getD 6 0, h.getD 7 0)
  let fin := (List.range 64).foldl
    (fun s t =>
      let (a, b, c, d, e, f, g, hh) := s
      let t1 := w32 (hh + bsig1 e + shaCh e f g + shaK.getD t 0 + w.getD t 0)
      let t2 := w32 (bsig0 a + shaMaj a b c)
      (w32 (t1 + t2), a, b, c, w32 (d + t1), e, f, g)) init
  let (a, b, c, d, e, f, g, hh) := fin
  [w32 (h.getD 0 0 + a), w32 (h.getD 1 0 + b), w32 (h.getD 2 0 + c),
   w32 (h.getD 3 0 + d), w32 (h.getD 4 0 + e), w32 (h.getD 5 0 + f),
   w32 (h.getD 6 0 + g), w32 (h.getD 7 0 + hh)]

/-- SHA-256 of a byte list, as eight 32-bit words. -/
def sha256 (msg : List Nat) : List Nat :=
  (chunk16 (bytesToWords (shaPad msg))).foldl compressBlock shaH0

/-- A hexadecimal digit character. -/
def hexDigit (n : Nat) : Char :=
  if n < 10 then Char.ofNat (48 + n) else Char.ofNat (87 + n)

/-- Eight lowercase hex characters of a 32-bit word, most significant
nibble first. -/
def wordHex (x : Nat) : List Char :=
  (List.range 8).map (fun i => hexDigit ((x >>> (28 - 4 * i)) % 16))

/-- Lowercase hex encoding of a SHA-256 digest (hex.EncodeToString). -/
def sha256hex (msg : List Nat) : String :=
  String.mk ((sha256 msg).foldr (fun w acc => wordHex w ++ acc) [])

/-- Bytes of a string.  The strings hashed by the orchestrator are
ASCII, where UTF-8 bytes and code points coincide. -/
def strBytes (s : String) : List Nat := s.data.map Char.toNat

/-! ### TemplateHash and ImageName (template builder) -/

/-- Lexicographic order on character lists, as Go compares strings
(byte order; the names compared here are ASCII, where byte order and
code-point order coincide). -/
def charListLe : List Char → List Char → Bool
  | [], _ => true
  | _ :: _, [] => false
  | a :: as, b :: bs => if a = b then charListLe as bs else decide (a < b)

/-- Lexicographic order on strings, as Go compares strings. -/
def strLe (a b : String) : Bool := charListLe a.data b.data

theorem charListLe_total : ∀ as bs, charListLe as bs = true ∨ charListLe bs as = true := by
  intro as
  induction as with
  | nil => intro bs; left; rfl
  | cons a as ih =>
    intro bs
    cases bs with
    | nil => right; rfl
    | cons b bs =>
      by_cases hab : a = b
      · subst hab
        rcases ih bs with h | h
        · left; simpa [charListLe] using h
        · right; simpa [charListLe] using h
      · rcases lt_trichotomy a b with h | h | h
        · left; simp [charListLe, hab, h]
        · exact absurd h hab
        · right; simp [charListLe, Ne.symm hab, h]

theorem charListLe_trans :
    ∀ as bs cs, charListLe as bs = true → charListLe bs cs = true →
      charListLe as cs = true := by
  intro as
  induction as with
  | nil => intro bs cs _ _; rfl
  | cons a as ih =>
    intro bs cs h1 h2
    cases bs with
    | nil => simp [charListLe] at h1
    | cons b bs =>
      cases cs with
      | nil => simp [charListLe] at h2
      | cons c cs =>
        by_cases hab : a = b <;> by_cases hbc : b = c
        · subst hab; subst hbc
          simp only [charListLe, if_pos rfl] at h1 h2 ⊢
          exact ih bs cs h1 h2
        · subst hab
          simp only [charListLe, if_pos rfl] at h1
          simp only [charListLe, if_neg hbc, decide_eq_true_eq] at h2
          simp [charListLe, hbc, h2]
        · subst hbc
          simp only [charListLe, if_neg hab, decide_eq_true_eq] at h1
          simp [charListLe, hab, h1]
        · simp only [charListLe, if_neg hab, decide_eq_true_eq] at h1
          simp only [charListLe, if_neg hbc, decide_eq_true_eq] at h2
          have hac : a < c := lt_trans h1 h2
          have : a ≠ c := ne_of_lt hac
          simp [charListLe, this, hac]

theorem charListLe_antisymm :
    ∀ as bs, charListLe as bs = true → charListLe bs as = true → as = bs := by
  intro as
  induction as with
  | nil =>
    intro bs _ h2
    cases bs with
    | nil => rfl
    | cons b bs => simp [charListLe] at h2
  | cons a as ih =>
    intro bs h1 h2
    cases bs with
    | nil => simp [charListLe] at h1
    | cons b bs =>
      by_cases hab : a = b
      · subst hab
        simp only [charListLe, if_pos rfl] at h1 h2
        rw [ih bs h1 h2]
      · simp only [charListLe, if_neg hab, decide_eq_true_eq] at h1
        simp only [charListLe, if_neg (Ne.symm hab), decide_eq_true_eq] at h2
        exact absurd (lt_trans h1 h2) (lt_irrefl a)

/-- The sorting relation used to model Go sort.Strings. -/
def StrOrd (a b : String) : Prop := strLe a b = true

instance : DecidableRel StrOrd := fun a b => instDecidableEqBool (strLe a b) true

instance : IsTotal String StrOrd :=
  ⟨fun a b => charListLe_total a.data b.data⟩

instance : IsTrans String StrOrd :=
  ⟨fun a b c => charListLe_trans a.data b.data c.data⟩

instance : IsAntisymm String StrOrd :=
  ⟨fun a b h1 h2 => by
    cases a; cases b
    exact congrArg String.mk (charListLe_antisymm _ _ h1 h2)⟩

/-- Model of Go sort.Strings: the ascending lexicographic sort.
Insertion sort produces the same output list as any sorting algorithm
under a total order, so it models the in-place sort extensionally. -/
def sortStrings (l : List String) : List String :=
  List.insertionSort StrOrd l

/-- Sorting is a canonical form: permuted inputs sort identically. -/
theorem sortStrings_eq_of_perm {l₁ l₂ : List String} (h : l₁.Perm l₂) :
    sortStrings l₁ = sortStrings l₂ :=
  List.eq_of_perm_of_sorted
    (((List.perm_insertionSort StrOrd l₁).trans h).trans
      (List.perm_insertionSort StrOrd l₂).symm)
    (List.sorted_insertionSort StrOrd l₁)
    (List.sorted_insertionSort StrOrd l₂)

/-- TemplateHash (template builder): resolve the profiles, sort them,
join them with commas, append a semicolon and the version string, and
keep the first twelve hex characters of the SHA-256 of the result.
The version string is the sboxVersion value, passed explicitly here
(dev mode and the build-time Version variable both feed into it). -/
def TemplateHash (profiles : List String) (version : String) : String :=
  let resolved := sortStrings (ResolveProfiles profiles)
  let combined := String.intercalate "," resolved ++ ";" ++ version
  String.mk ((sha256hex (strBytes combined)).data.take 12)

/-- ImageName (template builder): the sbox-template image reference
tagged with the template hash. -/
def ImageName (profiles : List String) (version : String) : String :=
  "sbox-template:" ++ TemplateHash profiles version

/-! ### Sandbox naming (GenerateSandboxName, sandbox.go)

The Go code takes the absolute workspace path, keeps the base name,
replaces every character outside letters, digits, hyphen and
underscore by a hyphen, collapses consecutive hyphens with a
replace-all loop, trims hyphens from both ends, falls back to the name
workspace when nothing remains, and prepends the sbox-claude- prefix. -/

/-- The character class kept by the sanitizing regular expression. -/
def isAllowedChar (c : Char) : Bool :=
  ('a' ≤ c && c ≤ 'z') || ('A' ≤ c && c ≤ 'Z') || ('0' ≤ c && c ≤ '9') ||
    c = '_' || c = '-'

/-- One pass of strings.ReplaceAll with pattern two hyphens and
replacement one hyphen: non-overlapping matches, left to right. -/
def collapsePass : List Char → List Char
  | [] => []
  | [c] => [c]
  | a :: b :: rest =>
    if a = '-' && b = '-' then '-' :: collapsePass rest
    else a :: collapsePass (b :: rest)

theorem collapsePass_length_le (l : List Char) :
    (collapsePass l).length ≤ l.length := by
  induction l using collapsePass.induct with
  | case1 => simp [collapsePass]
  | case2 c => simp [collapsePass]
  | case3 a b rest hab ih =>
    rw [collapsePass, if_pos hab]
    simp only [List.length_cons]
    omega
  | case4 a b rest hab ih =>
    rw [collapsePass, if_neg hab]
    simp only [List.length_cons]
    have := ih
    simp only [List.length_cons] at this
    omega

theorem containsSub_cons (x : Char) (xs pat : List Char) :
    containsSub (x :: xs) pat =
      (pat.isPrefixOf (x :: xs) || containsSub xs pat) := by
  simp [containsSub, List.tails]

theorem collapsePass_length_lt {l : List Char}
    (h : containsSub l ['-', '-'] = true) :
    (collapsePass l).length < l.length := by
  induction l using collapsePass.induct with
  | case1 => simp [containsSub] at h
  | case2 c => simp [containsSub, List.tails, List.isPrefixOf] at h
  | case3 a b rest hab ih =>
    rw [collapsePass, if_pos hab]
    have := collapsePass_length_le rest
    simp only [List.length_cons]
    omega
  | case4 a b rest hab ih =>
    rw [collapsePass, if_neg hab]
    have hrest : containsSub (b :: rest) ['-', '-'] = true := by
      rw [containsSub_cons] at h
      rcases Bool.or_eq_true_iff.mp h with hp | hc
      · exfalso
        apply hab
        simp only [List.isPrefixOf, Bool.and_eq_true, beq_iff_eq, and_true] at hp
        obtain ⟨h1, h2⟩ := hp
        rw [← h1, ← h2]
        decide
      · exact hc
    have := ih hrest
    simp only [List.length_cons] at this ⊢
    omega

/-- Repeated replace-all until no two consecutive hyphens remain (the
for loop over strings.Contains in GenerateSandboxName). -/
def collapseLoop (l : List Char) : List Char :=
  if h : containsSub l ['-', '-'] = true then collapseLoop (collapsePass l)
  else l
termination_by l.length
decreasing_by
  exact collapsePass_length_lt h

theorem collapseLoop_of_noDD {l : List Char}
    (h : containsSub l ['-', '-'] = false) : collapseLoop l = l := by
  rw [collapseLoop, dif_neg]
  simp [h]

theorem collapseLoop_noDD (l : List Char) :
    containsSub (collapseLoop l) ['-', '-'] = false := by
  by_cases h : containsSub l ['-', '-'] = true
  · rw [collapseLoop, dif_pos h]
    exact collapseLoop_noDD (collapsePass l)
  · rw [collapseLoop, dif_neg h]
    exact Bool.eq_false_iff.mpr h
termination_by l.length
decreasing_by
  exact collapsePass_length_lt h

theorem collapsePass_subset (l : List Char) :
    ∀ c ∈ collapsePass l, c ∈ l := by
  induction l using collapsePass.induct with
  | case1 => simp [collapsePass]
  | case2 c => simp [collapsePass]
  | case3 a b rest hab ih =>
    rw [collapsePass, if_pos hab]
    intro c hc
    rcases List.mem_cons.mp hc with rfl | hc
    · simp only [Bool.and_eq_true, decide_eq_true_eq] at hab
      rw [hab.1]
      simp
    · simp [ih c hc]
  | case4 a b rest hab ih =>
    rw [collapsePass, if_neg hab]
    intro c hc
    rcases List.mem_cons.mp hc with rfl | hc
    · simp
    · simpa using Or.inr (ih c hc)

theorem collapseLoop_subset (l : List Char) :
    ∀ c ∈ collapseLoop l, c ∈ l := by
  by_cases h : containsSub l ['-', '-'] = true
  · rw [collapseLoop, dif_pos h]
    intro c hc
    exact collapsePass_subset l c (collapseLoop_subset (collapsePass l) c hc)
  · rw [collapseLoop, dif_neg h]
    intro c hc
    exact hc
termination_by l.length
decreasing_by
  exact collapsePass_length_lt h

/-- strings.Trim with a hyphen cut set: drop hyphens from both ends. -/
def trimDashes (l : List Char) : List Char :=
  ((l.dropWhile (· = '-')).reverse.dropWhile (· = '-')).reverse

theorem trimDashes_inside (l : List Char) : trimDashes l <:+: l := by
  have h1 : l.dropWhile (· = '-') <:+ l := List.dropWhile_suffix _
  have h2 : trimDashes l <+: l.dropWhile (· = '-') := by
    unfold trimDashes
    have h3 := List.reverse_prefix.mpr
      (List.dropWhile_suffix (l := (l.dropWhile (· = '-')).reverse) (· = '-'))
    simpa using h3
  exact h2.isInfix.trans h1.isInfix

theorem containsSub_iff_inside {l pat : List Char} :
    containsSub l pat = true ↔ pat <:+: l := by
  unfold containsSub
  rw [List.any_eq_true]
  constructor
  · rintro ⟨t, ht, hp⟩
    exact List.infix_iff_prefix_suffix.mpr
      ⟨t, List.isPrefixOf_iff_prefix.mp hp, (List.mem_tails _ _).mp ht⟩
  · intro h
    obtain ⟨t, hp, hs⟩ := List.infix_iff_prefix_suffix.mp h
    exact ⟨t, (List.mem_tails _ _).mpr hs, List.isPrefixOf_iff_prefix.mpr hp⟩

theorem containsSub_false_of_infix {l x pat : List Char}
    (h : containsSub l pat = false) (hx : x <:+: l) :
    containsSub x pat = false := by
  by_contra hc
  have := containsSub_iff_inside.mp (Bool.of_not_eq_false hc)
  exact absurd (containsSub_iff_inside.mpr (this.trans hx))
    (Bool.eq_false_iff.mp h)

/-- The sanitizing pipeline of GenerateSandboxName applied to a base
name: replace disallowed characters, collapse hyphen runs, trim
hyphens, fall back to the name workspace. -/
def sanitizeBase (basename : String) : String :=
  let sanitized := basename.data.map (fun c => if isAllowedChar c then c else '-')
  let trimmed := trimDashes (collapseLoop sanitized)
  if trimmed = [] then "workspace" else String.mk trimmed

/-- GenerateSandboxName (sandbox.go): sbox-claude- followed by the
sanitized base name of the absolute workspace path.  The working
directory parameter stands for the directory consulted by
filepath.Abs. -/
def GenerateSandboxName (cwd workspaceDir : String) : String :=
  "sbox-claude-" ++ sanitizeBase (goBase (goAbs cwd workspaceDir))

theorem sanitizeBase_ok (b : String) :
    sanitizeBase b ≠ "" ∧
    (∀ c ∈ (sanitizeBase b).data, isAllowedChar c = true) ∧
    containsSub (sanitizeBase b).data ['-', '-'] = false := by
  unfold sanitizeBase
  set sanitized := b.data.map (fun c => if isAllowedChar c then c else '-') with hs
  have hall : ∀ c ∈ sanitized, isAllowedChar c = true := by
    intro c hc
    rw [hs] at hc
    obtain ⟨x, _, rfl⟩ := List.mem_map.mp hc
    by_cases hx : isAllowedChar x = true
    · rw [if_pos hx]
      exact hx
    · rw [if_neg hx]
      decide
  by_cases ht : trimDashes (collapseLoop sanitized) = []
  · rw [if_pos ht]
    refine ⟨by decide, by decide, by decide⟩
  · rw [if_neg ht]
    refine ⟨?_, ?_, ?_⟩
    · intro he
      apply ht
      have : (String.mk (trimDashes (collapseLoop sanitized))).data = [] := by
        rw [he]
      simpa using this
    · intro c hc
      simp only at hc
      have h1 : c ∈ collapseLoop sanitized :=
        (trimDashes_inside (collapseLoop sanitized)).subset hc
      exact hall c (collapseLoop_subset sanitized c h1)
    · simp only
      exact containsSub_false_of_infix (collapseLoop_noDD sanitized)
        (trimDashes_inside (collapseLoop sanitized))

/-! ### Concrete evaluations of the resolver -/

theorem resolveProfiles_single_unknown_a :
    ResolveProfiles ["p765bec"] = ["p765bec"] := by
  simp only [ResolveProfiles, List.foldl]
  rw [resolveName_leaf (by simp) (by decide)]
  rfl

theorem resolveProfiles_single_unknown_b :
    ResolveProfiles ["pd186ea"] = ["pd186ea"] := by
  simp only [ResolveProfiles, List.foldl]
  rw [resolveName_leaf (by simp) (by decide)]
  rfl

theorem resolveProfiles_substreams :
    ResolveProfiles ["substreams"] = ["rust", "substreams"] := by
  simp only [ResolveProfiles, List.foldl]
  rw [resolveName_substreams (by simp), resolveName_leaf (by simp) (by decide)]
  rfl

/-- Stability of the template hash under equal resolved profile sets:
the core of the cache-reuse guarantee. -/
theorem templateHash_eq_of_same_resolved {reqs1 reqs2 : List String}
    (version : String)
    (hmem : ∀ n, n ∈ ResolveProfiles reqs1 ↔ n ∈ ResolveProfiles reqs2) :
    TemplateHash reqs1 version = TemplateHash reqs2 version := by
  have hperm : (ResolveProfiles reqs1).Perm (ResolveProfiles reqs2) :=
    (List.perm_ext_iff_of_nodup (resolveProfiles_inv reqs1).1
      (resolveProfiles_inv reqs2).1).mpr hmem
  unfold TemplateHash
  rw [sortStrings_eq_of_perm hperm]

/-! ### Configuration data model (config.go and its later revisions)

The claims read the fields below; each structure carries the union of
the fields its readers use (the backend override and environment list
fields appear in the revision that defines ResolveBackendType), with
Go zero values as defaults. -/

/-- Global configuration (Config in config.go). -/
structure Config where
  ClaudeHome : String := ""
  SboxDataDir : String := ""
  DockerSocket : String := ""
  DefaultProfiles : List String := []
  DefaultBackend : String := ""
  Envs : List String := []
deriving DecidableEq

/-- Per-project configuration (ProjectConfig in config.go). -/
structure ProjectConfig where
  WorkspacePath : String := ""
  Profiles : List String := []
  Volumes : List String := []
  DockerSocket : String := ""
  Envs : List String := []
  Backend : String := ""
  SandboxName : String := ""
deriving DecidableEq

/-- Checked-in configuration (SboxFileConfig in config.go). -/
structure SboxFileConfig where
  Profiles : List String := []
  Volumes : List String := []
  DockerSocket : String := ""
  Envs : List String := []
  Backend : String := ""
deriving DecidableEq

/-- A located checked-in file (SboxFileLocation in config.go). -/
structure SboxFileLocation where
  Path : String := ""
  Dir : String := ""
  Config : Option SboxFileConfig := none
deriving DecidableEq

/-! ### Backend resolution (ResolveBackendType, backend.go) -/

/-- The sandbox backend tag. -/
def BackendSandbox : String := "sandbox"

/-- The container backend tag. -/
def BackendContainer : String := "container"

/-- The hardcoded default backend. -/
def DefaultBackend : String := BackendSandbox

/-- The backend named by a checked-in file, empty when the pointer
chain sboxFile, sboxFile.Config is nil (the Go short-circuit
conjunction). -/
def sboxFileBackend : Option SboxFileLocation → String
  | some sf =>
    match sf.Config with
    | some c => c.Backend
    | none => ""
  | none => ""

/-- The backend named by the project config, empty when nil. -/
def projectBackend : Option ProjectConfig → String
  | some pc => pc.Backend
  | none => ""

/-- The default backend named by the global config, empty when nil. -/
def globalBackend : Option Config → String
  | some c => c.DefaultBackend
  | none => ""

/-- ResolveBackendType (backend.go): CLI flag, then checked-in file,
then project config, then global config, then the hardcoded default. -/
def ResolveBackendType (cliBackend : String) (sboxFile : Option SboxFileLocation)
    (projectConfig : Option ProjectConfig) (config : Option Config) : String :=
  if cliBackend ≠ "" then cliBackend
  else if sboxFileBackend sboxFile ≠ "" then sboxFileBackend sboxFile
  else if projectBackend projectConfig ≠ "" then projectBackend projectConfig
  else if globalBackend config ≠ "" then globalBackend config
  else DefaultBackend

/-! ### Environment merging

MergeEnvs itself is not among the repository files provided (only its
tests and callers are), so it is modelled from the spec; EnvName and
resolveEnvs follow their sources. -/

/-- EnvName: the variable name of a spec, everything before the first
equals sign (the whole spec when none). -/
def EnvName (spec : String) : String :=
  String.mk (spec.data.takeWhile (· ≠ '='))

/-- A merged environment entry with its origin tag. -/
structure ResolvedEnv where
  Spec : String
  Source : String
deriving DecidableEq

/-- Insert one spec into the ordered map: an entry with the same
variable name is overwritten in place (value and source), otherwise
the entry is appended. -/
def upsertEnv (acc : List ResolvedEnv) (spec source : String) : List ResolvedEnv :=
  if acc.any (fun r => EnvName r.Spec = EnvName spec) then
    acc.map (fun r => if EnvName r.Spec = EnvName spec then ⟨spec, source⟩ else r)
  else acc ++ [⟨spec, source⟩]

/-- Tag each spec of one source list with its origin. -/
def tagEnvs (specs : List String) (source : String) : List (String × String) :=
  specs.map (fun s => (s, source))

/-- Fold tagged entries through the ordered map. -/
def mergeTagged (entries : List (String × String)) : List ResolvedEnv :=
  entries.foldl (fun acc e => upsertEnv acc e.1 e.2) []

/-- Modelled from the spec: MergeEnvs is absent from the provided
repository files (only TestMergeEnvs and callers appear), and the spec
says: build an ordered map keyed by variable name; apply global, then
checked-in, then project; last writer for a given name wins, while
preserving first-seen insertion order.  The origin tags global, .sbox
and project and the pair of returned lists follow TestMergeEnvs. -/
def MergeEnvs (globalEnvs projectEnvs sboxFileEnvs : List String) :
    List String × List ResolvedEnv :=
  let resolved := mergeTagged
    (tagEnvs globalEnvs "global" ++ tagEnvs sboxFileEnvs ".sbox" ++
      tagEnvs projectEnvs "project")
  (resolved.map (fun r => r.Spec), resolved)

/-- resolveEnvs (entrypoint preparation): merge the three sources and
substitute passthrough names from the host environment, dropping
passthrough names unset on the host.  The host environment is the
function parameter, empty meaning unset. -/
def resolveEnvs (hostEnv : String → String)
    (globalEnvs projectEnvs sboxFileEnvs : List String) : List String :=
  (MergeEnvs globalEnvs projectEnvs sboxFileEnvs).1.filterMap (fun env =>
    if strContains env "=" then some env
    else if hostEnv env ≠ "" then some (env ++ "=" ++ hostEnv env)
    else none)

/-! #### Characterization of the merge -/

/-- Keep-first deduplication, the insertion order of an ordered map. -/
def dedupKeepFirst (l : List String) : List String :=
  l.foldl (fun acc k => if k ∈ acc then acc else acc ++ [k]) []

theorem find?_replace_hit (acc : List ResolvedEnv) (spec source : String) :
    (acc.map (fun r => if EnvName r.Spec = EnvName spec then ⟨spec, source⟩ else r)).find?
        (fun r => EnvName r.Spec = EnvName spec) =
      if acc.any (fun r => EnvName r.Spec = EnvName spec) then some ⟨spec, source⟩
      else none := by
  induction acc with
  | nil => simp
  | cons a as ih =>
    by_cases ha : EnvName a.Spec = EnvName spec
    · simp [ha]
    · simp only [List.map_cons, if_neg ha, List.any_cons]
      rw [List.find?_cons_of_neg _ (by simpa using ha)]
      simpa [ha] using ih

theorem find?_replace_miss (acc : List ResolvedEnv) (spec source k : String)
    (hk : EnvName spec ≠ k) :
    (acc.map (fun r => if EnvName r.Spec = EnvName spec then ⟨spec, source⟩ else r)).find?
        (fun r => EnvName r.Spec = k) =
      acc.find? (fun r => EnvName r.Spec = k) := by
  induction acc with
  | nil => simp
  | cons a as ih =>
    by_cases ha : EnvName a.Spec = EnvName spec
    · simp only [List.map_cons, if_pos ha]
      rw [List.find?_cons_of_neg _ (by simpa using hk),
        List.find?_cons_of_neg _ (by simp [ha, hk])]
      exact ih
    · simp only [List.map_cons, if_neg ha]
      by_cases hak : EnvName a.Spec = k
      · rw [List.find?_cons_of_pos _ (by simpa using hak),
          List.find?_cons_of_pos _ (by simpa using hak)]
      · rw [List.find?_cons_of_neg _ (by simpa using hak),
          List.find?_cons_of_neg _ (by simpa using hak)]
        exact ih

theorem find?_upsertEnv (acc : List ResolvedEnv) (spec source k : String) :
    (upsertEnv acc spec source).find? (fun r => EnvName r.Spec = k) =
      if EnvName spec = k then some ⟨spec, source⟩
      else acc.find? (fun r => EnvName r.Spec = k) := by
  unfold upsertEnv
  by_cases hany : acc.any (fun r => EnvName r.Spec = EnvName spec) = true
  · rw [if_pos hany]
    by_cases hk : EnvName spec = k
    · rw [if_pos hk, ← hk, find?_replace_hit, if_pos hany]
    · rw [if_neg hk, find?_replace_miss acc spec source k hk]
  · rw [if_neg hany, List.find?_append]
    by_cases hk : EnvName spec = k
    · rw [if_pos hk]
      have hnone : acc.find? (fun r => EnvName r.Spec = k) = none := by
        rw [List.find?_eq_none]
        intro x hx
        simp only [decide_eq_true_eq]
        intro he
        exact hany (List.any_eq_true.mpr ⟨x, hx, by simp [he, hk]⟩)
      simp [hnone, hk]
    · rw [if_neg hk]
      have : ([(⟨spec, source⟩ : ResolvedEnv)].find? (fun r => EnvName r.Spec = k)) = none := by
        simp [hk]
      rw [this]
      simp

theorem find?_mergeTagged (entries : List (String × String)) (k : String) :
    (mergeTagged entries).find? (fun r => EnvName r.Spec = k) =
      (entries.reverse.find? (fun e => EnvName e.1 = k)).map
        (fun e => (⟨e.1, e.2⟩ : ResolvedEnv)) := by
  induction entries using List.reverseRecOn with
  | nil => simp [mergeTagged]
  | append_singleton es e ih =>
    have hstep : mergeTagged (es ++ [e]) = upsertEnv (mergeTagged es) e.1 e.2 := by
      unfold mergeTagged
      rw [List.foldl_append]
      rfl
    rw [hstep, find?_upsertEnv, List.reverse_append]
    by_cases hk : EnvName e.1 = k
    · rw [if_pos hk]
      simp [hk]
    · rw [if_neg hk]
      rw [ih]
      simp [hk]

theorem keys_upsertEnv (acc : List ResolvedEnv) (spec source : String) :
    (upsertEnv acc spec source).map (fun r => EnvName r.Spec) =
      if EnvName spec ∈ acc.map (fun r => EnvName r.Spec) then
        acc.map (fun r => EnvName r.Spec)
      else acc.map (fun r => EnvName r.Spec) ++ [EnvName spec] := by
  unfold upsertEnv
  have hiff : acc.any (fun r => EnvName r.Spec = EnvName spec) = true ↔
      EnvName spec ∈ acc.map (fun r => EnvName r.Spec) := by
    constructor
    · intro h
      obtain ⟨r, hr, he⟩ := List.any_eq_true.mp h
      exact List.mem_map.mpr ⟨r, hr, by simpa using of_decide_eq_true he⟩
    · intro h
      obtain ⟨r, hr, he⟩ := List.mem_map.mp h
      exact List.any_eq_true.mpr ⟨r, hr, by simp [he]⟩
  by_cases hany : acc.any (fun r => EnvName r.Spec = EnvName spec) = true
  · rw [if_pos hany, if_pos (hiff.mp hany), List.map_map]
    apply List.map_congr_left
    intro r _
    by_cases hr : EnvName r.Spec = EnvName spec
    · simp [hr]
    · simp [hr]
  · rw [if_neg hany, if_neg (fun hm => hany (hiff.mpr hm))]
    simp

theorem keys_mergeTagged_general (entries : List (String × String)) :
    ∀ acc : List ResolvedEnv,
      (entries.foldl (fun a e => upsertEnv a e.1 e.2) acc).map (fun r => EnvName r.Spec) =
        entries.foldl
          (fun ks e => if EnvName e.1 ∈ ks then ks else ks ++ [EnvName e.1])
          (acc.map (fun r => EnvName r.Spec)) := by
  induction entries with
  | nil => intro acc; rfl
  | cons e es ih =>
    intro acc
    simp only [List.foldl_cons]
    rw [ih (upsertEnv acc e.1 e.2), keys_upsertEnv]

theorem keys_mergeTagged (entries : List (String × String)) :
    (mergeTagged entries).map (fun r => EnvName r.Spec) =
      dedupKeepFirst (entries.map (fun e => EnvName e.1)) := by
  unfold mergeTagged dedupKeepFirst
  rw [keys_mergeTagged_general entries [], List.foldl_map]
  rfl

theorem dedupKeepFirst_nodup (l : List String) : (dedupKeepFirst l).Nodup := by
  unfold dedupKeepFirst
  suffices h : ∀ acc : List String, acc.Nodup →
      (l.foldl (fun a k => if k ∈ a then a else a ++ [k]) acc).Nodup from
    h [] List.nodup_nil
  induction l with
  | nil => intro acc h; exact h
  | cons k ks ih =>
    intro acc hacc
    simp only [List.foldl_cons]
    by_cases hk : k ∈ acc
    · rw [if_pos hk]
      exact ih acc hacc
    · rw [if_neg hk]
      exact ih (acc ++ [k]) (by simp [List.nodup_append, hacc, hk])

/-! ### Entrypoint manifest (WriteEntrypointConfig and
ReadEntrypointConfig in the entrypoint module)

The YAML marshalling of the manifest structure is faithful for these
fields (strings, an integer and lists of string records), so the
stored file is modelled as the document itself; a missing or
unreadable file is the none case of the reader. -/

/-- The current entrypoint config format version. -/
def EntrypointConfigVersion : Nat := 1

/-- A plugin entry of the manifest. -/
structure EntrypointPlugin where
  Name : String := ""
  Path : String := ""
  Version : String := ""
  PackageVersion : String := ""
deriving DecidableEq

/-- An agent entry of the manifest. -/
structure EntrypointAgent where
  Name : String := ""
  Path : String := ""
deriving DecidableEq

/-- The manifest exchanged between host and sandbox. -/
structure EntrypointConfig where
  Version : Nat := 0
  Plugins : List EntrypointPlugin := []
  Agents : List EntrypointAgent := []
deriving DecidableEq

/-- WriteEntrypointConfig: stamp the current version and store the
document.  The returned value is the stored document. -/
def WriteEntrypointConfig (config : EntrypointConfig) : EntrypointConfig :=
  { config with Version := EntrypointConfigVersion }

/-- ReadEntrypointConfig: fail when the file is absent, when the
stored version is zero (the missing-field zero value), or when the
stored version exceeds the supported version; otherwise return the
document. -/
def ReadEntrypointConfig (stored : Option EntrypointConfig) :
    Except String EntrypointConfig :=
  match stored with
  | none => .error "failed to read entrypoint config"
  | some config =>
    if config.Version = 0 then .error "entrypoint config missing version field"
    else if config.Version > EntrypointConfigVersion then
      .error "entrypoint config version is newer than supported version; please update sbox"
    else .ok config

/-! ### Checked-in config merging (MergeProjectConfig, config.go) -/

/-- ParseVolumeSpec (config.go): host path, container path and an
optional read-only marker, separated by colons. -/
def ParseVolumeSpec (spec : String) : Except String (String × String × Bool) :=
  match (splitOnChar ':' spec.data).map String.mk with
  | [a, b] => .ok (a, b, false)
  | [a, b, c] =>
    if c = "ro" then .ok (a, b, true)
    else .error ("invalid volume option " ++ c ++ " (expected ro)")
  | _ => .error ("invalid volume specification " ++ spec)

/-- ResolveVolumePath (config.go): tilde paths resolve against the
home directory (passed explicitly, standing for os.UserHomeDir), dot
and dot-dot relative paths against the base directory, all other paths
pass through unchanged. -/
def ResolveVolumePath (home : String) (volumePath baseDir : String) : String :=
  if strHasPrefix volumePath "~/" || volumePath = "~" then
    if volumePath = "~" then home
    else goJoin home (String.mk (volumePath.data.drop 2))
  else if strHasPrefix volumePath "./" || strHasPrefix volumePath "../" then
    goJoin baseDir volumePath
  else volumePath

/-- One checked-in volume: parse the spec, resolve the host path
against the directory containing the checked-in file, and rebuild the
spec string. -/
def resolveSboxVolume (home dir vol : String) : Except String String :=
  match ParseVolumeSpec vol with
  | .error e => .error ("invalid volume in .sbox file: " ++ e)
  | .ok (hostPath, containerPath, readOnly) =>
    .ok (ResolveVolumePath home hostPath dir ++ ":" ++ containerPath ++
      (if readOnly then ":ro" else ""))

/-- The loop over checked-in volumes: resolve each in order, stopping
at the first parse error. -/
def resolveSboxVolumes (home dir : String) : List String → Except String (List String)
  | [] => .ok []
  | v :: vs =>
    match resolveSboxVolume home dir v with
    | .error e => .error e
    | .ok rv =>
      match resolveSboxVolumes home dir vs with
      | .error e => .error e
      | .ok rvs => .ok (rv :: rvs)

/-- MergeProjectConfig (config.go): without a checked-in file the
project config passes through; otherwise checked-in profiles are
appended with name deduplication (first occurrence wins), every
checked-in volume is appended after host-path resolution, and a
non-empty checked-in socket setting overrides the project one.  Only
the three merged fields are populated, as in the source. -/
def MergeProjectConfig (home : String) (projectConfig : ProjectConfig)
    (sboxFile : Option SboxFileLocation) : Except String ProjectConfig :=
  match sboxFile with
  | none => .ok projectConfig
  | some sf =>
    match sf.Config with
    | none => .ok projectConfig
    | some sboxConfig =>
      let profiles := sboxConfig.Profiles.foldl
        (fun acc p => if p ∈ acc then acc else acc ++ [p]) projectConfig.Profiles
      match resolveSboxVolumes home sf.Dir sboxConfig.Volumes with
      | .error e => .error e
      | .ok resolved =>
        .ok { Profiles := profiles,
              Volumes := projectConfig.Volumes ++ resolved,
              DockerSocket :=
                if sboxConfig.DockerSocket ≠ "" then sboxConfig.DockerSocket
                else projectConfig.DockerSocket }

/-! ### Mount drift detection (CheckMountMismatch) -/

/-- A volume mount. -/
structure VolumeMount where
  Source : String
  Destination : String
  ReadOnly : Bool
deriving DecidableEq

/-- The Go map from destination to mount built by iterating the actual
mounts: a later entry with the same destination overwrites an earlier
one, so lookup finds the last occurrence. -/
def lookupByDest (actual : List VolumeMount) (dest : String) : Option VolumeMount :=
  actual.reverse.find? (fun m => m.Destination = dest)

/-- filepath.EvalSymlinks followed by the fallback in
CheckMountMismatch: the resolver parameter returns the empty string on
a resolution error, in which case the original path is kept. -/
def resolveSymlinksOr (eval : String → String) (path : String) : String :=
  if eval path = "" then path else eval path

/-- CheckMountMismatch: an expected mount is missing when no actual
mount has its destination, or when the actual mount there has a source
that is neither string-equal nor symlink-resolved-equal to the
expected source.  The source returns nil or a structure holding this
list; the model returns the list of missing mounts (actual mounts
absent from the expected set are never examined). -/
def CheckMountMismatch (eval : String → String)
    (expectedMounts actualMounts : List VolumeMount) : List VolumeMount :=
  expectedMounts.filter (fun expected =>
    match lookupByDest actualMounts expected.Destination with
    | none => true
    | some actual =>
      decide (expected.Source ≠ actual.Source ∧
        resolveSymlinksOr eval expected.Source ≠ resolveSymlinksOr eval actual.Source))

theorem lookupByDest_eq_none_iff {actual : List VolumeMount} {d : String} :
    lookupByDest actual d = none ↔ ∀ a ∈ actual, a.Destination ≠ d := by
  unfold lookupByDest
  rw [List.find?_eq_none]
  constructor
  · intro h a ha he
    exact h a (List.mem_reverse.mpr ha) (by simp [he])
  · intro h a ha hp
    exact h a (List.mem_reverse.mp ha) (of_decide_eq_true hp)

theorem lookupByDest_mem {actual : List VolumeMount} {d : String} {a : VolumeMount}
    (h : lookupByDest actual d = some a) : a ∈ actual ∧ a.Destination = d := by
  unfold lookupByDest at h
  refine ⟨List.mem_reverse.mp (List.mem_of_find?_eq_some h), ?_⟩
  have := List.find?_some h
  exact of_decide_eq_true this

theorem lookupByDest_unique {actual : List VolumeMount} {d : String} {a : VolumeMount}
    (hnodup : (actual.map (fun m => m.Destination)).Nodup)
    (ha : a ∈ actual) (hd : a.Destination = d) :
    lookupByDest actual d = some a := by
  cases hfind : lookupByDest actual d with
  | none =>
    exact absurd hd (lookupByDest_eq_none_iff.mp hfind a ha)
  | some b =>
    obtain ⟨hb, hbd⟩ := lookupByDest_mem hfind
    have : b = a :=
      List.inj_on_of_nodup_map hnodup hb ha (by rw [hbd, hd])
    rw [this]

/-- The loop over checked-in volumes succeeds exactly when every
volume resolves, producing the pointwise resolutions. -/
theorem resolveSboxVolumes_ok {home dir : String} {volumes : List String}
    (hok : ∀ v ∈ volumes, ∃ r, resolveSboxVolume home dir v = .ok r) :
    ∃ rs, resolveSboxVolumes home dir volumes = .ok rs ∧
      List.Forall₂ (fun v r => resolveSboxVolume home dir v = .ok r) volumes rs := by
  induction volumes with
  | nil => exact ⟨[], rfl, List.Forall₂.nil⟩
  | cons v vs ih =>
    obtain ⟨r, hr⟩ := hok v (by simp)
    obtain ⟨rs, hrs, hall⟩ := ih (fun x hx => hok x (by simp [hx]))
    refine ⟨r :: rs, ?_, List.Forall₂.cons hr hall⟩
    unfold resolveSboxVolumes
    rw [hr, hrs]

/-- The profile fold appends exactly the checked-in names absent from
the base list, in first-seen order, without duplicates. -/
theorem dedupAppend_spec (l : List String) :
    ∀ base : List String,
      ∃ rest, l.foldl (fun acc p => if p ∈ acc then acc else acc ++ [p]) base =
          base ++ rest ∧
        rest.Nodup ∧ (∀ q ∈ rest, q ∈ l ∧ q ∉ base) ∧
        (∀ q ∈ l, q ∈ l.foldl (fun acc p => if p ∈ acc then acc else acc ++ [p]) base) := by
  induction l with
  | nil =>
    intro base
    exact ⟨[], by simp, List.nodup_nil, by simp, by simp⟩
  | cons p ps ih =>
    intro base
    simp only [List.foldl_cons]
    by_cases hp : p ∈ base
    · rw [if_pos hp]
      obtain ⟨rest, heq, hnd, hsub, hcov⟩ := ih base
      refine ⟨rest, heq, hnd,
        fun q hq => ⟨List.mem_cons_of_mem p (hsub q hq).1, (hsub q hq).2⟩, ?_⟩
      intro q hq
      rcases List.mem_cons.mp hq with rfl | hq
      · rw [heq]
        exact List.mem_append_left _ hp
      · exact hcov q hq
    · rw [if_neg hp]
      obtain ⟨rest, heq, hnd, hsub, hcov⟩ := ih (base ++ [p])
      refine ⟨p :: rest, by rw [heq]; simp, ?_, ?_, ?_⟩
      · refine List.Nodup.cons ?_ hnd
        intro hmem
        exact (hsub p hmem).2 (by simp)
      · intro q hq
        rcases List.mem_cons.mp hq with rfl | hq
        · exact ⟨by simp, hp⟩
        · obtain ⟨hql, hqb⟩ := hsub q hq
          exact ⟨List.mem_cons_of_mem p hql, fun hqb2 => hqb (by simp [hqb2])⟩
      · intro q hq
        rcases List.mem_cons.mp hq with rfl | hq
        · rw [heq]
          simp
        · exact hcov q hq

/-! ### Backend Stop paths as command traces (backend_sandbox.go and
backend.go)

Each operation returns its result together with the list of external
docker invocations it performed.  The discovery world is passed
explicitly: the table printed by docker sandbox ls for the sandbox
backend, and the name-filtered docker ps lookup for the container
backend.  The stop and remove invocations are modelled as succeeding;
their failure paths wrap the captured stderr and are not reached in
the scenarios settled here. -/

/-- One external docker invocation. -/
inductive DockerCmd
  | sandboxLs
  | sandboxStop (id : String)
  | sandboxRm (id : String)
  | psList (nameFilter : String)
  | containerStop (id : String)
  | containerRm (id : String)
deriving DecidableEq

/-- A row of the docker sandbox ls table (DockerSandbox in
sandbox.go). -/
structure DockerSandbox where
  ID : String
  Name : String
  Image : String
  Status : String
  Workspace : String
deriving DecidableEq

/-- Backend-agnostic unit information (ContainerInfo in backend.go). -/
structure ContainerInfo where
  ID : String
  Name : String
  Status : String
  Image : String
  Workspace : String
  Backend : String
deriving DecidableEq

/-- ListDockerSandboxes: run docker sandbox ls and parse its table;
the world parameter is the parsed table. -/
def ListDockerSandboxes (world : List DockerSandbox) :
    List DockerSandbox × List DockerCmd :=
  (world, [.sandboxLs])

/-- FindDockerSandbox (sandbox.go): list all sandboxes, first match by
the generated name, then fall back to matching the recorded workspace
against the absolute and symlink-resolved workspace path, resolving
symlinks on the recorded side as well. -/
def FindDockerSandbox (world : List DockerSandbox) (eval : String → String)
    (cwd workspaceDir : String) : Option DockerSandbox × List DockerCmd :=
  let absPath := goAbs cwd workspaceDir
  let realPath := resolveSymlinksOr eval absPath
  let listed := ListDockerSandboxes world
  let expectedName := GenerateSandboxName cwd workspaceDir
  let byName := listed.1.find? (fun sb => sb.Name = expectedName)
  let byWorkspace := listed.1.find? (fun sb =>
    let sbReal := resolveSymlinksOr eval sb.Workspace
    sb.Workspace = absPath || sb.Workspace = realPath ||
      sbReal = absPath || sbReal = realPath)
  (byName.orElse (fun _ => byWorkspace), listed.2)

/-- SandboxBackend.Find: FindDockerSandbox converted to
ContainerInfo. -/
def SandboxBackendFind (world : List DockerSandbox) (eval : String → String)
    (cwd workspaceDir : String) : Option ContainerInfo × List DockerCmd :=
  let found := FindDockerSandbox world eval cwd workspaceDir
  (found.1.map (fun sb =>
    { ID := sb.ID, Name := sb.Name, Status := sb.Status, Image := sb.Image,
      Workspace := sb.Workspace, Backend := BackendSandbox }), found.2)

/-- SandboxBackend.FindRunning: Find filtered to running units. -/
def SandboxBackendFindRunning (world : List DockerSandbox) (eval : String → String)
    (cwd workspaceDir : String) : Option ContainerInfo × List DockerCmd :=
  let found := SandboxBackendFind world eval cwd workspaceDir
  (found.1.bind (fun info =>
    if info.Status = "running" then some info else none), found.2)

/-- SandboxBackend.Stop: look for a running unit; when none is found
return an absent result with no error; otherwise stop it and, when
requested, remove it. -/
def SandboxBackendStop (world : List DockerSandbox) (eval : String → String)
    (cwd workspaceDir : String) (remove : Bool) :
    Except String (Option ContainerInfo) × List DockerCmd :=
  match SandboxBackendFindRunning world eval cwd workspaceDir with
  | (none, trace) => (.ok none, trace)
  | (some info, trace) =>
    (.ok (some info),
     trace ++ [.sandboxStop info.ID] ++ (if remove then [.sandboxRm info.ID] else []))

/-- A parsed row of docker ps json output (backend.go). -/
structure PsEntry where
  ID : String
  Names : String
  Image : String
  State : String
  Status : String
deriving DecidableEq

/-- ContainerBackend.Find: one docker ps lookup filtered by the exact
generated container name; the world parameter maps a name filter to
the parsed entry, none when no container matches. -/
def ContainerBackendFind (psWorld : String → Option PsEntry)
    (cwd workspaceDir : String) : Option ContainerInfo × List DockerCmd :=
  let absPath := goAbs cwd workspaceDir
  let containerName := GenerateSandboxName cwd workspaceDir
  ((psWorld containerName).map (fun e =>
    { ID := e.ID, Name := e.Names, Status := e.State, Image := e.Image,
      Workspace := absPath, Backend := BackendContainer }),
   [.psList containerName])

/-- ContainerBackend.FindRunning. -/
def ContainerBackendFindRunning (psWorld : String → Option PsEntry)
    (cwd workspaceDir : String) : Option ContainerInfo × List DockerCmd :=
  let found := ContainerBackendFind psWorld cwd workspaceDir
  (found.1.bind (fun info =>
    if info.Status = "running" then some info else none), found.2)

/-- ContainerBackend.Stop, mirroring the sandbox backend shape. -/
def ContainerBackendStop (psWorld : String → Option PsEntry)
    (cwd workspaceDir : String) (remove : Bool) :
    Except String (Option ContainerInfo) × List DockerCmd :=
  match ContainerBackendFindRunning psWorld cwd workspaceDir with
  | (none, trace) => (.ok none, trace)
  | (some info, trace) =>
    (.ok (some info),
     trace ++ [.containerStop info.ID] ++
       (if remove then [.containerRm info.ID] else []))

/-- A command trace contains a state-changing invocation. -/
def traceMutates (trace : List DockerCmd) : Bool :=
  trace.any (fun c =>
    match c with
    | .sandboxStop _ => true
    | .sandboxRm _ => true
    | .containerStop _ => true
    | .containerRm _ => true
    | .sandboxLs => false
    | .psList _ => false)

/-! ### Sandbox creation error handling (CreateDockerSandbox in
sandbox.go and the creation step of SandboxBackend.Run) -/

/-- The message of the error cmd.Run returns for a child that exited
with a non-zero status. -/
def goExitErrMsg (n : Nat) : String := "exit status " ++ toString n

/-- The error produced by CreateDockerSandbox, given the exit code of
docker sandbox create (none for success) and the text the tool printed
on stderr.  The source sets cmd.Stdout and cmd.Stderr to the
terminal, so the stderr text is streamed to the user and never enters
the returned error; the wrapping adds only the fixed prefix to the
exec error message. -/
def CreateDockerSandboxErr (exitCode : Option Nat) (stderrText : String) :
    Option String :=
  match exitCode with
  | none => none
  | some n => some ("docker sandbox create failed: " ++ goExitErrMsg n)

/-- The creation step of SandboxBackend.Run: a creation error whose
message contains already exists is reclassified as success; any other
creation error is wrapped and propagated. -/
def sandboxRunCreateOutcome (createErr : Option String) : Except String Unit :=
  match createErr with
  | none => .ok ()
  | some e =>
    if strContains e "already exists" then .ok ()
    else .error ("failed to create sandbox: " ++ e)

/-! ## Claim theorems -/

/-- C1: merging the three environment lists builds an ordered map
keyed by variable name, applying global, then checked-in, then
project: the entry a name ends with is the last-applied tagged entry
carrying that name (value and origin tag), the merged key sequence is
the first-seen deduplication of the applied key sequence (so
first-seen insertion order is preserved and each name appears once),
the returned merged list is the spec view of the resolved list, and an
empty source list changes nothing: the merge collapses to the fold
over the remaining two sources in the same order. -/
theorem mergeEnvs_ordered_map (g p s : List String) :
    (∀ k, (MergeEnvs g p s).2.find? (fun r => EnvName r.Spec = k) =
      ((tagEnvs g "global" ++ tagEnvs s ".sbox" ++ tagEnvs p "project").reverse.find?
        (fun e => EnvName e.1 = k)).map (fun e => (⟨e.1, e.2⟩ : ResolvedEnv))) ∧
    ((MergeEnvs g p s).2.map (fun r => EnvName r.Spec) =
      dedupKeepFirst ((tagEnvs g "global" ++ tagEnvs s ".sbox" ++
        tagEnvs p "project").map (fun e => EnvName e.1))) ∧
    ((MergeEnvs g p s).2.map (fun r => EnvName r.Spec)).Nodup ∧
    (MergeEnvs g p s).1 = (MergeEnvs g p s).2.map (fun r => r.Spec) ∧
    (MergeEnvs g p []).2 = mergeTagged (tagEnvs g "global" ++ tagEnvs p "project") ∧
    (MergeEnvs [] p s).2 = mergeTagged (tagEnvs s ".sbox" ++ tagEnvs p "project") ∧
    (MergeEnvs g [] s).2 = mergeTagged (tagEnvs g "global" ++ tagEnvs s ".sbox") := by
  refine ⟨fun k => find?_mergeTagged _ k, keys_mergeTagged _, ?_, rfl, ?_, ?_, ?_⟩
  · have hdef : (MergeEnvs g p s).2 = mergeTagged
        (tagEnvs g "global" ++ tagEnvs s ".sbox" ++ tagEnvs p "project") := rfl
    rw [hdef, keys_mergeTagged]
    exact dedupKeepFirst_nodup _
  · simp [MergeEnvs, tagEnvs]
  · simp [MergeEnvs, tagEnvs]
  · simp [MergeEnvs, tagEnvs]

/-- The end-to-end merge scenario of the spec and the override vectors
of TestMergeEnvs, evaluated on the model. -/
theorem mergeEnvs_vectors :
    MergeEnvs ["A=global"] ["B=project", "C=project"] ["A=sbox", "B=sbox"] =
      (["A=sbox", "B=project", "C=project"],
       [⟨"A=sbox", ".sbox"⟩, ⟨"B=project", "project"⟩, ⟨"C=project", "project"⟩]) ∧
    MergeEnvs ["TOKEN"] ["FOO=bar"] ["FOO=baz", "BAZ=qux"] =
      (["TOKEN", "FOO=bar", "BAZ=qux"],
       [⟨"TOKEN", "global"⟩, ⟨"FOO=bar", "project"⟩, ⟨"BAZ=qux", ".sbox"⟩]) := by
  constructor <;> rfl

/-- C2: for every requested profile list (the built-in catalog is
acyclic), ResolveProfiles places every dependency of every output
profile strictly before it, never outputs the same profile twice,
includes every requested name in the output (unknown names pass
through unresolved), and is idempotent: resolving the output again
yields the same list. -/
theorem resolveProfiles_correct (requested : List String) :
    (∀ i, (h : i < (ResolveProfiles requested).length) →
      ∀ d ∈ depsOf ((ResolveProfiles requested)[i]),
        d ∈ (ResolveProfiles requested).take i) ∧
    (ResolveProfiles requested).Nodup ∧
    (∀ n ∈ requested, n ∈ ResolveProfiles requested) ∧
    ResolveProfiles (ResolveProfiles requested) = ResolveProfiles requested := by
  obtain ⟨hnodup, hclosed, hmem⟩ := resolveProfiles_inv requested
  exact ⟨hclosed, hnodup, hmem, resolveProfiles_idem requested⟩

/-- Witness for C2 at the request of the spec scenario. -/
theorem resolveProfiles_correct_witness :
    "substreams" ∈ ResolveProfiles ["substreams"] ∧
    ResolveProfiles (ResolveProfiles ["substreams"]) = ResolveProfiles ["substreams"] :=
  ⟨(resolveProfiles_correct ["substreams"]).2.2.1 "substreams" (by simp),
   (resolveProfiles_correct ["substreams"]).2.2.2⟩

/-- C3 as amended: the template hash (and with it the image name) is
a function of the resolved profile set and the version string: any two
requested lists resolving to the same profile set, in particular any
permutation or duplication of the requested profiles, yield the same
tag.  The source truncates the hash to twelve hex characters, so the
converse direction of the claim (any change to the resolved set or
version changes the tag) fails; see the collision below. -/
theorem templateHash_stable (version : String) (reqs1 reqs2 : List String) :
    ((∀ n, n ∈ ResolveProfiles reqs1 ↔ n ∈ ResolveProfiles reqs2) →
      TemplateHash reqs1 version = TemplateHash reqs2 version ∧
      ImageName reqs1 version = ImageName reqs2 version) ∧
    ((∀ n, n ∈ reqs1 ↔ n ∈ reqs2) →
      TemplateHash reqs1 version = TemplateHash reqs2 version) := by
  constructor
  · intro hmem
    have h := templateHash_eq_of_same_resolved version hmem
    exact ⟨h, by unfold ImageName; rw [h]⟩
  · intro hreq
    apply templateHash_eq_of_same_resolved version
    intro n
    rw [mem_resolveProfiles, mem_resolveProfiles]
    have h1 := hreq n
    have h2 := hreq "substreams"
    tauto

/-- Witness for C3: permutation plus duplication of the request leaves
the tag unchanged. -/
theorem templateHash_stable_witness :
    TemplateHash ["substreams", "rust"] "v1" =
      TemplateHash ["rust", "substreams", "rust"] "v1" :=
  (templateHash_stable "v1" ["substreams", "rust"] ["rust", "substreams", "rust"]).2
    (by
      intro n
      simp only [List.mem_cons, List.not_mem_nil, or_false]
      tauto)

set_option maxRecDepth 4000 in
/-- Counterexample for C3 as stated: two requests resolving to
distinct profile sets whose template hashes, truncated to twelve hex
characters, coincide under the same version string, so a change to the
resolved profile set does not always change the tag. -/
theorem templateHash_collision :
    "p765bec" ∈ ResolveProfiles ["p765bec"] ∧
    "p765bec" ∉ ResolveProfiles ["pd186ea"] ∧
    TemplateHash ["p765bec"] "dev" = TemplateHash ["pd186ea"] "dev" ∧
    ImageName ["p765bec"] "dev" = ImageName ["pd186ea"] "dev" := by
  refine ⟨?_, ?_, ?_, ?_⟩
  · rw [resolveProfiles_single_unknown_a]
    simp
  · rw [resolveProfiles_single_unknown_b]
    simp
  · unfold TemplateHash
    rw [resolveProfiles_single_unknown_a, resolveProfiles_single_unknown_b]
    decide
  · unfold ImageName TemplateHash
    rw [resolveProfiles_single_unknown_a, resolveProfiles_single_unknown_b]
    decide

/-- C4: writing an entrypoint manifest and reading it back yields
field-for-field equal data (the stored document carries the current
schema version, the only supported one, and both lists unchanged),
while reading fails closed with an error, never returning a manifest,
whenever the stored version exceeds the supported version, is zero,
or the version field is missing (the zero value of an absent YAML
field), or the file itself is absent. -/
theorem entrypointConfig_roundTrip :
    (∀ config : EntrypointConfig,
      ReadEntrypointConfig (some (WriteEntrypointConfig config)) =
        .ok (WriteEntrypointConfig config) ∧
      (WriteEntrypointConfig config).Version = EntrypointConfigVersion ∧
      (WriteEntrypointConfig config).Plugins = config.Plugins ∧
      (WriteEntrypointConfig config).Agents = config.Agents) ∧
    (∀ stored : EntrypointConfig, stored.Version > EntrypointConfigVersion →
      ∀ c, ReadEntrypointConfig (some stored) ≠ .ok c) ∧
    (∀ stored : EntrypointConfig, stored.Version = 0 →
      ∀ c, ReadEntrypointConfig (some stored) ≠ .ok c) ∧
    (∀ c, ReadEntrypointConfig none ≠ .ok c) := by
  refine ⟨?_, ?_, ?_, ?_⟩
  · intro config
    refine ⟨?_, rfl, rfl, rfl⟩
    simp [ReadEntrypointConfig, WriteEntrypointConfig, EntrypointConfigVersion]
  · intro stored hv c
    have h0 : stored.Version ≠ 0 := by
      intro h
      rw [h] at hv
      exact absurd hv (by simp [EntrypointConfigVersion])
    simp [ReadEntrypointConfig, h0, hv]
  · intro stored hv c
    simp [ReadEntrypointConfig, hv]
  · intro c
    simp [ReadEntrypointConfig]

/-- Witness for C4: a concrete round trip and a concrete newer-version
rejection. -/
theorem entrypointConfig_roundTrip_witness :
    ReadEntrypointConfig (some (WriteEntrypointConfig
        { Version := 0, Plugins := [],
          Agents := [{ Name := "a", Path := "agents/a.json" }] })) =
      .ok (WriteEntrypointConfig
        { Version := 0, Plugins := [],
          Agents := [{ Name := "a", Path := "agents/a.json" }] }) ∧
    (∀ c, ReadEntrypointConfig (some { Version := 2 }) ≠ .ok c) ∧
    (∀ c, ReadEntrypointConfig (some { Version := 0 }) ≠ .ok c) :=
  ⟨(entrypointConfig_roundTrip.1 _).1,
   entrypointConfig_roundTrip.2.1 { Version := 2 } (by decide),
   entrypointConfig_roundTrip.2.2.1 { Version := 0 } rfl⟩

/-- C5: backend resolution follows the precedence CLI flag, checked-in
config, project config, global default, hardcoded default: a non-empty
CLI value always wins, and emptying each highest-priority source in
turn (including removing the checked-in file altogether) cascades to
the next, bottoming out at the sandbox default when every source is
empty. -/
theorem resolveBackendType_precedence (cli : String) (sfc : SboxFileConfig)
    (sfl : SboxFileLocation) (pc : ProjectConfig) (cfg : Config)
    (hc : sfl.Config = some sfc) :
    (cli ≠ "" → ResolveBackendType cli (some sfl) (some pc) (some cfg) = cli) ∧
    (cli = "" → sfc.Backend ≠ "" →
      ResolveBackendType cli (some sfl) (some pc) (some cfg) = sfc.Backend) ∧
    (cli = "" → sfc.Backend = "" → pc.Backend ≠ "" →
      ResolveBackendType cli (some sfl) (some pc) (some cfg) = pc.Backend) ∧
    (cli = "" → sfc.Backend = "" → pc.Backend = "" → cfg.DefaultBackend ≠ "" →
      ResolveBackendType cli (some sfl) (some pc) (some cfg) = cfg.DefaultBackend) ∧
    (cli = "" → sfc.Backend = "" → pc.Backend = "" → cfg.DefaultBackend = "" →
      ResolveBackendType cli (some sfl) (some pc) (some cfg) = "sandbox") ∧
    (cli = "" → pc.Backend ≠ "" →
      ResolveBackendType cli none (some pc) (some cfg) = pc.Backend) ∧
    ResolveBackendType "" none none none = "sandbox" := by
  have hsf : sboxFileBackend (some sfl) = sfc.Backend := by
    simp [sboxFileBackend, hc]
  refine ⟨?_, ?_, ?_, ?_, ?_, ?_, rfl⟩
  · intro h
    simp [ResolveBackendType, h]
  · intro h1 h2
    simp [ResolveBackendType, h1, hsf, h2]
  · intro h1 h2 h3
    simp [ResolveBackendType, h1, hsf, h2, projectBackend, h3]
  · intro h1 h2 h3 h4
    simp [ResolveBackendType, h1, hsf, h2, projectBackend, h3, globalBackend, h4]
  · intro h1 h2 h3 h4
    simp [ResolveBackendType, h1, hsf, h2, projectBackend, h3, globalBackend, h4,
      DefaultBackend, BackendSandbox]
  · intro h1 h2
    simp [ResolveBackendType, h1, sboxFileBackend, projectBackend, h2]

/-- Witness for C5: all four sources set to distinct values resolve to
the CLI value, and the full cascade at concrete configurations. -/
theorem resolveBackendType_precedence_witness :
    ResolveBackendType "container" (some ⟨"/w/.sbox", "/w", some { Backend := "b2" }⟩)
      (some { Backend := "b3" }) (some { DefaultBackend := "b4" }) = "container" ∧
    ResolveBackendType "" (some ⟨"/w/.sbox", "/w", some { Backend := "b2" }⟩)
      (some { Backend := "b3" }) (some { DefaultBackend := "b4" }) = "b2" ∧
    ResolveBackendType "" (some ⟨"/w/.sbox", "/w", some { Backend := "" }⟩)
      (some { Backend := "b3" }) (some { DefaultBackend := "b4" }) = "b3" ∧
    ResolveBackendType "" (some ⟨"/w/.sbox", "/w", some { Backend := "" }⟩)
      (some { Backend := "" }) (some { DefaultBackend := "b4" }) = "b4" ∧
    ResolveBackendType "" (some ⟨"/w/.sbox", "/w", some { Backend := "" }⟩)
      (some { Backend := "" }) (some { DefaultBackend := "" }) = "sandbox" :=
  ⟨(resolveBackendType_precedence "container" { Backend := "b2" } _ _ _ rfl).1
      (by decide),
   (resolveBackendType_precedence "" { Backend := "b2" } _ _ _ rfl).2.1 rfl (by decide),
   (resolveBackendType_precedence "" { Backend := "" } _ _ _ rfl).2.2.1 rfl rfl
      (by decide),
   (resolveBackendType_precedence "" { Backend := "" } _ _ _ rfl).2.2.2.1 rfl rfl rfl
      (by decide),
   (resolveBackendType_precedence "" { Backend := "" } _ _ _ rfl).2.2.2.2.1 rfl rfl rfl
      rfl⟩

/-- C6: with actual mount destinations pairwise distinct (as map keys
are), an expected mount is reported missing precisely when no actual
mount has its destination, or the actual mount at that destination has
a source that is neither string-equal nor symlink-resolved-equal to
the expected one; and everything reported comes from the expected set,
so actual mounts absent from the expected set are never reported. -/
theorem checkMountMismatch_correct (eval : String → String)
    (expected actual : List VolumeMount)
    (hnodup : (actual.map (fun m => m.Destination)).Nodup) :
    (∀ m ∈ expected,
      (m ∈ CheckMountMismatch eval expected actual ↔
        (∀ a ∈ actual, a.Destination ≠ m.Destination) ∨
        (∃ a ∈ actual, a.Destination = m.Destination ∧
          m.Source ≠ a.Source ∧
          resolveSymlinksOr eval m.Source ≠ resolveSymlinksOr eval a.Source))) ∧
    (∀ m ∈ CheckMountMismatch eval expected actual, m ∈ expected) := by
  constructor
  · intro m hm
    rw [CheckMountMismatch, List.mem_filter]
    constructor
    · rintro ⟨-, hp⟩
      cases hfind : lookupByDest actual m.Destination with
      | none =>
        exact Or.inl (lookupByDest_eq_none_iff.mp hfind)
      | some a =>
        rw [hfind] at hp
        obtain ⟨ha, had⟩ := lookupByDest_mem hfind
        have := of_decide_eq_true hp
        exact Or.inr ⟨a, ha, had, this.1, this.2⟩
    · intro h
      refine ⟨hm, ?_⟩
      rcases h with h | ⟨a, ha, had, hs, hr⟩
      · rw [(lookupByDest_eq_none_iff (d := m.Destination)).mpr h]
      · rw [lookupByDest_unique hnodup ha had]
        exact decide_eq_true ⟨hs, hr⟩
  · intro m hm
    exact (List.mem_filter.mp hm).1

/-- Witness for C6 at the spec scenario: the unit has mount A at x but
the configuration requires A at x and B at y; exactly B at y is
missing. -/
theorem checkMountMismatch_correct_witness :
    (⟨"B", "/y", false⟩ : VolumeMount) ∈
      CheckMountMismatch (fun _ => "")
        [⟨"A", "/x", false⟩, ⟨"B", "/y", false⟩] [⟨"A", "/x", false⟩] ∧
    (⟨"A", "/x", false⟩ : VolumeMount) ∉
      CheckMountMismatch (fun _ => "")
        [⟨"A", "/x", false⟩, ⟨"B", "/y", false⟩] [⟨"A", "/x", false⟩] ∧
    CheckMountMismatch (fun _ => "")
        [⟨"A", "/x", false⟩, ⟨"B", "/y", false⟩] [⟨"A", "/x", false⟩] =
      [⟨"B", "/y", false⟩] :=
  ⟨((checkMountMismatch_correct (fun _ => "") _ _ (by decide)).1 _
      (by decide)).mpr (Or.inl (by decide)),
   fun hmem =>
     absurd (((checkMountMismatch_correct (fun _ => "") _ _ (by decide)).1 _
       (by decide)).mp hmem) (by decide),
   by decide⟩

theorem sandboxFindRunning_trace (world : List DockerSandbox)
    (eval : String → String) (cwd w : String) :
    (SandboxBackendFindRunning world eval cwd w).2 = [.sandboxLs] := rfl

theorem containerFindRunning_trace (psWorld : String → Option PsEntry)
    (cwd w : String) :
    (ContainerBackendFindRunning psWorld cwd w).2 =
      [.psList (GenerateSandboxName cwd w)] := rfl

/-- C7 as amended: when no running unit exists for the workspace, Stop
of either backend returns an absent result with no error and issues no
state-changing external command (no stop, no remove); its only
external invocation is the read-only discovery query (docker sandbox
ls, or the name-filtered docker ps). -/
theorem stopAbsent_noMutation :
    (∀ (world : List DockerSandbox) (eval : String → String) (cwd w : String)
        (remove : Bool),
      (SandboxBackendFindRunning world eval cwd w).1 = none →
        SandboxBackendStop world eval cwd w remove = (.ok none, [.sandboxLs]) ∧
        traceMutates (SandboxBackendStop world eval cwd w remove).2 = false) ∧
    (∀ (psWorld : String → Option PsEntry) (cwd w : String) (remove : Bool),
      (ContainerBackendFindRunning psWorld cwd w).1 = none →
        ContainerBackendStop psWorld cwd w remove =
          (.ok none, [.psList (GenerateSandboxName cwd w)]) ∧
        traceMutates (ContainerBackendStop psWorld cwd w remove).2 = false) := by
  constructor
  · intro world eval cwd w remove h
    have hstop : SandboxBackendStop world eval cwd w remove =
        (.ok none, (SandboxBackendFindRunning world eval cwd w).2) := by
      unfold SandboxBackendStop
      rcases hE : SandboxBackendFindRunning world eval cwd w with ⟨o, tr⟩
      rw [hE] at h
      simp only at h
      subst h
      rfl
    rw [hstop, sandboxFindRunning_trace]
    exact ⟨rfl, rfl⟩
  · intro psWorld cwd w remove h
    have hstop : ContainerBackendStop psWorld cwd w remove =
        (.ok none, (ContainerBackendFindRunning psWorld cwd w).2) := by
      unfold ContainerBackendStop
      rcases hE : ContainerBackendFindRunning psWorld cwd w with ⟨o, tr⟩
      rw [hE] at h
      simp only at h
      subst h
      rfl
    rw [hstop, containerFindRunning_trace]
    exact ⟨rfl, rfl⟩

/-- Witness for C7 as amended, at a world with no units at all. -/
theorem stopAbsent_noMutation_witness :
    SandboxBackendStop [] (fun _ => "") "/" "/w" true = (.ok none, [.sandboxLs]) ∧
    traceMutates (SandboxBackendStop [] (fun _ => "") "/" "/w" true).2 = false :=
  stopAbsent_noMutation.1 [] (fun _ => "") "/" "/w" true rfl

/-- Counterexample for C7 as stated: even with no running unit, Stop
performs one external-tool invocation, the docker sandbox ls discovery
query, so its command trace is not empty. -/
theorem stopAbsent_performsLookup :
    SandboxBackendStop [] (fun _ => "") "/" "/w" false =
      (.ok none, [DockerCmd.sandboxLs]) ∧
    (SandboxBackendStop [] (fun _ => "") "/" "/w" false).2 ≠ [] := by
  refine ⟨rfl, ?_⟩
  intro h
  exact List.cons_ne_nil _ _ h

/-- C8: the creation rescue cannot fire.  The already-exists check in
SandboxBackend.Run inspects the creation error text, but
CreateDockerSandbox streams the stderr of docker sandbox create to the
terminal instead of capturing it, so the wrapped error holds only the
exit status: for the racing creation that prints an already-exists
message and exits with status one, the wrapped error does not contain
the marker text and Run propagates a failure, though the check itself
would reclassify an error carrying the marker as success. -/
theorem createAlreadyExists_notRescued :
    CreateDockerSandboxErr (some 1)
        "Error response from daemon: sandbox already exists" =
      some "docker sandbox create failed: exit status 1" ∧
    strContains "docker sandbox create failed: exit status 1" "already exists" =
      false ∧
    sandboxRunCreateOutcome (CreateDockerSandboxErr (some 1)
        "Error response from daemon: sandbox already exists") =
      .error "failed to create sandbox: docker sandbox create failed: exit status 1" ∧
    sandboxRunCreateOutcome
        (some "create failed: a sandbox with this name already exists") = .ok () := by
  exact ⟨by decide, by decide, rfl, rfl⟩

theorem resolveVolumePath_relative (home vp dir : String)
    (hp : strHasPrefix vp "./" = true ∨ strHasPrefix vp "../" = true) :
    ResolveVolumePath home vp dir = goJoin dir vp := by
  have hdata : ∃ rest, vp.data = '.' :: rest := by
    rcases hp with h | h
    · obtain ⟨t, ht⟩ := List.isPrefixOf_iff_prefix.mp h
      exact ⟨'/' :: t, ht.symm⟩
    · obtain ⟨t, ht⟩ := List.isPrefixOf_iff_prefix.mp h
      exact ⟨'.' :: '/' :: t, ht.symm⟩
  obtain ⟨rest, hrest⟩ := hdata
  have h1 : strHasPrefix vp "~/" = false := by
    unfold strHasPrefix
    rw [hrest]
    simp [List.isPrefixOf]
  have h2 : vp ≠ "~" := by
    intro he
    rw [he] at hrest
    simp at hrest
  unfold ResolveVolumePath
  rcases hp with h | h <;> simp [h1, h2, h]

theorem resolveVolumePath_home (home vp dir : String)
    (hp : strHasPrefix vp "~/" = true) :
    ResolveVolumePath home vp dir = goJoin home (String.mk (vp.data.drop 2)) := by
  have h2 : vp ≠ "~" := by
    intro he
    rw [he] at hp
    exact absurd hp (by decide)
  unfold ResolveVolumePath
  simp [hp, h2]

/-- C9 as amended: merging a checked-in config appends checked-in
profiles with name deduplication in which the first occurrence wins (a
checked-in profile never displaces an existing project entry, profiles
absent from the project list are added once, in order), while every
checked-in volume is appended to the project volume list with no
deduplication, after resolving its host path: dot and dot-dot paths
against the directory containing the checked-in file, tilde paths
against the home directory of the invoking user. -/
theorem mergeProjectConfig_amended (home : String) (project : ProjectConfig)
    (sf : SboxFileLocation) (sboxConfig : SboxFileConfig)
    (hc : sf.Config = some sboxConfig)
    (hok : ∀ v ∈ sboxConfig.Volumes, ∃ r, resolveSboxVolume home sf.Dir v = .ok r) :
    (∃ merged rest resolved,
      MergeProjectConfig home project (some sf) = .ok merged ∧
      merged.Profiles = project.Profiles ++ rest ∧
      rest.Nodup ∧
      (∀ q ∈ rest, q ∈ sboxConfig.Profiles ∧ q ∉ project.Profiles) ∧
      (∀ q ∈ sboxConfig.Profiles, q ∈ merged.Profiles) ∧
      merged.Volumes = project.Volumes ++ resolved ∧
      List.Forall₂ (fun v r => resolveSboxVolume home sf.Dir v = .ok r)
        sboxConfig.Volumes resolved ∧
      merged.DockerSocket =
        (if sboxConfig.DockerSocket ≠ "" then sboxConfig.DockerSocket
         else project.DockerSocket)) ∧
    (∀ vp dir, (strHasPrefix vp "./" = true ∨ strHasPrefix vp "../" = true) →
      ResolveVolumePath home vp dir = goJoin dir vp) ∧
    (∀ vp dir, strHasPrefix vp "~/" = true →
      ResolveVolumePath home vp dir = goJoin home (String.mk (vp.data.drop 2))) := by
  refine ⟨?_, fun vp dir h => resolveVolumePath_relative home vp dir h,
    fun vp dir h => resolveVolumePath_home home vp dir h⟩
  obtain ⟨rs, hrs, hall⟩ := resolveSboxVolumes_ok hok
  obtain ⟨rest, heq, hnd, hsub, hcov⟩ :=
    dedupAppend_spec sboxConfig.Profiles project.Profiles
  have hmpc : MergeProjectConfig home project (some sf) =
      .ok { Profiles := sboxConfig.Profiles.foldl
              (fun acc p => if p ∈ acc then acc else acc ++ [p]) project.Profiles,
            Volumes := project.Volumes ++ rs,
            DockerSocket :=
              if sboxConfig.DockerSocket ≠ "" then sboxConfig.DockerSocket
              else project.DockerSocket } := by
    simp [MergeProjectConfig, hc, hrs]
  refine ⟨_, rest, rs, hmpc, ?_, hnd, hsub, ?_, rfl, hall, rfl⟩
  · exact heq
  · intro q hq
    exact hcov q hq

/-- Witness for C9 as amended: a checked-in file adds one new profile
and two volumes whose host paths resolve against its directory and the
home directory. -/
theorem mergeProjectConfig_amended_witness :
    MergeProjectConfig "/home/u" { Profiles := ["go"], Volumes := ["/a:/a"] }
        (some ⟨"/w/.sbox", "/w",
          some { Profiles := ["go", "rust"], Volumes := ["./x:/x:ro", "~/y:/y"] }⟩) =
      .ok { Profiles := ["go", "rust"],
            Volumes := ["/a:/a", "/w/x:/x:ro", "/home/u/y:/y"],
            DockerSocket := "" } := by
  have hok : ∀ v ∈ ["./x:/x:ro", "~/y:/y"],
      ∃ r, resolveSboxVolume "/home/u" "/w" v = .ok r := by
    intro v hv
    rcases List.mem_cons.mp hv with rfl | hv
    · exact ⟨"/w/x:/x:ro", rfl⟩
    · rcases List.mem_cons.mp hv with rfl | hv
      · exact ⟨"/home/u/y:/y", rfl⟩
      · exact absurd hv (by simp)
  have h := (mergeProjectConfig_amended "/home/u"
      { Profiles := ["go"], Volumes := ["/a:/a"] }
      ⟨"/w/.sbox", "/w",
        some { Profiles := ["go", "rust"], Volumes := ["./x:/x:ro", "~/y:/y"] }⟩
      { Profiles := ["go", "rust"], Volumes := ["./x:/x:ro", "~/y:/y"] } rfl hok).1
  rfl

/-- Counterexample for C9 as stated: a checked-in volume identical to
an existing project volume is appended again, so volumes are not
deduplicated by name with the first occurrence winning. -/
theorem mergeProjectConfig_volume_dup :
    MergeProjectConfig "/home/u" { Volumes := ["/data:/d"] }
        (some ⟨"/w/.sbox", "/w", some { Volumes := ["/data:/d"] }⟩) =
      .ok { Volumes := ["/data:/d", "/data:/d"] } ∧
    "/data:/d" ∈ ({ Volumes := ["/data:/d"] } : ProjectConfig).Volumes ∧
    List.count "/data:/d"
        ({ Volumes := ["/data:/d", "/data:/d"] } : ProjectConfig).Volumes = 2 := by
  exact ⟨rfl, by simp, by decide⟩

/-- C10: the generated unit name is the sbox-claude- prefix followed
by a non-empty suffix over letters, digits, hyphens and underscores
with no two consecutive hyphens, and it is computed solely from the
base name of the absolutized workspace path, so two distinct
workspaces sharing that base name receive the same unit name. -/
theorem generateSandboxName_correct :
    (∀ cwd w, GenerateSandboxName cwd w =
      "sbox-claude-" ++ sanitizeBase (goBase (goAbs cwd w))) ∧
    (∀ cwd w,
      sanitizeBase (goBase (goAbs cwd w)) ≠ "" ∧
      (∀ c ∈ (sanitizeBase (goBase (goAbs cwd w))).data, isAllowedChar c = true) ∧
      containsSub (sanitizeBase (goBase (goAbs cwd w))).data ['-', '-'] = false) ∧
    (∀ cwd1 w1 cwd2 w2, goBase (goAbs cwd1 w1) = goBase (goAbs cwd2 w2) →
      GenerateSandboxName cwd1 w1 = GenerateSandboxName cwd2 w2) := by
  refine ⟨fun _ _ => rfl, fun cwd w => sanitizeBase_ok _, ?_⟩
  intro cwd1 w1 cwd2 w2 h
  unfold GenerateSandboxName
  rw [h]

/-- Witness for C10: two distinct workspaces with the same base name
collide on the same unit name, and the name evaluates as expected. -/
theorem generateSandboxName_correct_witness :
    GenerateSandboxName "/" "/home/alice/proj" =
      GenerateSandboxName "/" "/home/bob/proj" ∧
    GenerateSandboxName "/" "/home/alice/proj" = "sbox-claude-proj" := by
  constructor
  · exact generateSandboxName_correct.2.2 "/" "/home/alice/proj" "/" "/home/bob/proj"
      (by decide)
  · have h1 : goBase (goAbs "/" "/home/alice/proj") = "proj" := by decide
    unfold GenerateSandboxName
    rw [h1]
    simp only [sanitizeBase]
    rw [collapseLoop_of_noDD (by decide)]
    decide

end Sbox
